import Mathlib

/-!
# Verification of the feed-request identity / canonicalization / dedup core

This file is a shallow embedding, in Lean 4, of the request-store core of the
repository (files `src/satpass/slug.py`, `src/satpass/requests_db.py`, and the
`RequestedLocation` model of `src/satpass/config.py`), together with theorems
settling the frozen claims about it.

Modelling conventions:

* Coordinates (`lat`, `lon`) are modelled as exact rationals (`ℚ`).  Python's
  `round(value, p)` followed by fixed-point formatting is modelled as one exact
  half-to-even rounding of `value * 10^p`; for decimal inputs the two agree.
* UTC timestamps (the ISO-8601 strings produced by `_utc_now` and compared with
  Python string `min`/`max`/`sorted`) are modelled as natural numbers: the ISO
  strings compare lexicographically exactly as the instants they denote, so the
  order structure — all the code uses — is preserved.  Each state-changing
  operation takes its clock value `now` as an explicit argument.
* The sqlite table is modelled as a list of rows (`Store`).  The TEXT column
  `selected_norad_ids` always holds, for every row written by this module, the
  canonical `json.dumps` rendering of an integer list, and that rendering is
  injective; the column is therefore modelled by the parsed list itself, and
  the SQL string comparison in `get_request_by_signature` by list equality.
* `request_key` is the table's PRIMARY KEY, so sqlite guarantees that live
  rows have pairwise distinct `request_key` values; theorems that need this
  take it as an explicit hypothesis, and `UPDATE ... WHERE request_key = ?`
  is modelled as a map over the (at most one) matching row.
* Python's truthiness (`x or y` treating `None` and `""` as false) and SQL
  `COALESCE` (treating only NULL as missing) are modelled separately, as
  `pyOr` and `coalesce`.
-/

/-- Python `a or b` on optional strings: `None` and `""` are falsy. -/
def pyOr (a b : Option String) : Option String :=
  match a with
  | none => b
  | some s => if s = "" then b else some s

/-- Python `a or b` on plain strings: `""` is falsy. -/
def pyOrS (a b : String) : String :=
  if a = "" then b else a

/-- SQL `COALESCE(a, b)`: only NULL is missing. -/
def coalesce (a b : Option String) : Option String :=
  match a with
  | none => b
  | some s => some s

/-- Python list slicing `l[:k]` for an `int` bound `k`: a nonnegative bound
keeps the first `k` elements, a negative bound drops `|k|` elements from the
end (clamped at the empty list). -/
def pySlice {α : Type} (k : Int) (l : List α) : List α :=
  if 0 ≤ k then l.take k.toNat else l.take (l.length - (-k).toNat)

/-- Decimal digits of a natural number, most significant first (`str(n)` for
`n > 0`); the first argument is fuel, always called with `fuel = n`. -/
def natDigits : Nat → Nat → List Char
  | 0, _ => []
  | _ + 1, 0 => []
  | fuel + 1, n => natDigits fuel (n / 10) ++ [Char.ofNat (48 + n % 10)]

/-- Python `str(n)` for a natural number. -/
def natStr (n : Nat) : String :=
  if n = 0 then "0" else String.mk (natDigits n n)

/-- Python `str(n)` for an integer. -/
def intStr (n : Int) : String :=
  if n < 0 then "-" ++ natStr n.natAbs else natStr n.natAbs

/-- Lowercase hexadecimal digit. -/
def hexDigit (n : Nat) : Char :=
  if n < 10 then Char.ofNat (48 + n) else Char.ofNat (87 + n)

/-- Python `f"{n:08x}"` for `n < 2^32`: eight lowercase hex digits. -/
def toHex8 (n : Nat) : String :=
  String.mk ((List.range 8).map (fun i => hexDigit (n / 16 ^ (7 - i) % 16)))

/-- Left-pad a string with `'0'` to the given width (the fractional part of
Python's fixed-point `f"{v:.{p}f}"` rendering). -/
def padZeros (width : Nat) (s : String) : String :=
  String.mk (List.replicate (width - s.length) '0') ++ s

/-- Normalised NORAD id selection, `normalize_norad_ids` of
`src/satpass/requests_db.py` (and `_normalize_norad_ids` of
`src/satpass/slug.py`): Python `sorted({int(i) for i in ids})`, i.e. the
duplicate-free ascending enumeration.  `None` is modelled by the caller
passing `[]`. -/
def normalize_norad_ids (l : List Int) : List Int :=
  List.insertionSort (· ≤ ·) l.dedup

/-- FNV-1a (32 bit) over the UTF-8 bytes of an ASCII payload, the hash loop of
`selection_hash` in `src/satpass/slug.py`.  The payload consists of digits,
`'-'` and `','` only, so its UTF-8 bytes are the character codes. -/
def fnv1a32 (payload : String) : Nat :=
  payload.data.foldl (fun h c => ((h ^^^ c.toNat) * 16777619) % 4294967296) 2166136261

/-- `selection_hash` of `src/satpass/slug.py`: deterministic short hash of the
normalised selection. -/
def selection_hash (l : List Int) : String :=
  let normalized := normalize_norad_ids l
  let payload := String.intercalate "," (normalized.map intStr)
  toHex8 (fnv1a32 payload)

/-- Half-to-even (banker's) rounding of the exact fraction `n / d` (`d > 0`),
Python's `round`, written on the numerator and denominator so that it reduces
inside the kernel: `fl` is the floor, `r` the remainder, and a tie (`2r = d`)
rounds to the even neighbour. -/
def roundHalfEvenInt (n d : Int) : Int :=
  let fl := Int.fdiv n d
  let r := n - fl * d
  if 2 * r < d then fl
  else if d < 2 * r then fl + 1
  else if fl % 2 = 0 then fl else fl + 1

/-- Python `round(value, precision)` scaled by `10 ^ precision`: the exact
half-to-even rounding of `value * 10 ^ precision` to an integer. -/
def pyRoundScaled (value : ℚ) (precision : Nat) : Int :=
  roundHalfEvenInt (value.num * 10 ^ precision) (value.den : Int)

/-- `format_coordinate` of `src/satpass/slug.py`: round to `precision` decimal
digits, render with `'p'` for the decimal point and an `'m'` prefix for
negative values. -/
def format_coordinate (value : ℚ) (precision : Nat) : String :=
  let scaled : Int := pyRoundScaled value precision
  let sign : String := if scaled < 0 then "m" else ""
  if precision = 0 then sign ++ natStr scaled.natAbs
  else
    sign ++ natStr (scaled.natAbs / 10 ^ precision) ++ "p" ++
      padZeros precision (natStr (scaled.natAbs % 10 ^ precision))

/-- `compute_location_slug` of `src/satpass/slug.py`. -/
def compute_location_slug (lat lon : ℚ) (precision : Nat) : String :=
  "lat" ++ format_coordinate lat precision ++ "_lon" ++ format_coordinate lon precision

/-- `compute_request_feed_slug` of `src/satpass/slug.py` (callers always pass a
normalised selection). -/
def compute_request_feed_slug (location_slug bundle_slug : String)
    (selected_norad_ids : List Int) : String :=
  if selected_norad_ids = [] then location_slug ++ "--" ++ bundle_slug
  else
    location_slug ++ "--" ++ bundle_slug ++ "--sel-" ++ selection_hash selected_norad_ids

/-- `request_key_for` of `src/satpass/requests_db.py`. -/
def request_key_for (location_slug bundle_slug : String) (selected_norad_ids : List Int) :
    String :=
  compute_request_feed_slug location_slug bundle_slug (normalize_norad_ids selected_norad_ids)

/-- `location_key_for` of `src/satpass/requests_db.py`. -/
def location_key_for (lat lon : ℚ) (precision : Nat) : String :=
  compute_location_slug lat lon precision

/-- The reassignment `selected = [i for i in selected if i in available_set]`
guarded by `if selected and available` inside `canonicalize_selection`. -/
def canonFilter (selected available : List Int) : List Int :=
  if selected ≠ [] ∧ available ≠ [] then selected.filter (· ∈ available) else selected

/-- `canonicalize_selection` of `src/satpass/requests_db.py`.  Python's
`set(selected) == set(available)` is `List.toFinset` equality. -/
def canonicalize_selection (selected_norad_ids available_norad_ids : List Int) : List Int :=
  let available := normalize_norad_ids available_norad_ids
  let selected2 := canonFilter (normalize_norad_ids selected_norad_ids) available
  if selected2 ≠ [] ∧ available ≠ [] ∧ selected2.toFinset = available.toFinset then []
  else selected2

/-- `default_selection` of `src/satpass/requests_db.py`. -/
def default_selection (available_norad_ids : List Int) (max_satellites : Int) : List Int :=
  if normalize_norad_ids available_norad_ids = [] then []
  else pySlice max_satellites (normalize_norad_ids available_norad_ids)

/-- The `RequestedLocation` model of `src/satpass/config.py` (the fields the
request core reads).  `selected_norad_ids = none` models Python `None`; the
validators (coordinate bounds, positive ids) run before this core and are not
needed by any claim. -/
structure RequestedLocation where
  slug : Option String
  name : Option String
  lat : ℚ
  lon : ℚ
  elevation_m : Option ℚ
  bundle_slug : String
  selected_norad_ids : Option (List Int)
  requested_by : Option String
  requested_at : Option String
deriving DecidableEq, Repr

/-- `RequestedLocation.resolved_location_slug` of `src/satpass/config.py`. -/
def resolved_location_slug (req : RequestedLocation) (precision : Nat) : String :=
  match req.slug with
  | none => compute_location_slug req.lat req.lon precision
  | some s =>
    if s = "" then compute_location_slug req.lat req.lon precision
    else if (s.splitOn "--").length = 1 then s
    else (s.splitOn "--").headD s

/-- One sqlite row of the `requests` table (`init_db` in
`src/satpass/requests_db.py`).  `location_key` is nullable (the column is
added by migration); `selected` stands for the TEXT column
`selected_norad_ids` via its parsed integer list. -/
structure Row where
  request_key : String
  location_slug : String
  location_key : Option String
  bundle_slug : String
  lat : ℚ
  lon : ℚ
  elevation_m : Option ℚ
  name : Option String
  selected : List Int
  requested_by : Option String
  requested_at : Option String
  first_seen : Nat
  last_seen : Nat
deriving DecidableEq, Repr

/-- The live table. -/
abbrev Store : Type := List Row

/-- The `RequestRecord` dataclass of `src/satpass/requests_db.py` (read view:
`location_key` is `row[2] or ""`). -/
structure Rec where
  request_key : String
  location_slug : String
  location_key : String
  bundle_slug : String
  lat : ℚ
  lon : ℚ
  elevation_m : Option ℚ
  name : Option String
  selected : List Int
  requested_by : Option String
  requested_at : Option String
  first_seen : Nat
  last_seen : Nat
deriving DecidableEq, Repr

/-- Conversion of a stored row to the read view (the row-to-`RequestRecord`
tail shared by `list_requests`, `get_request_by_key`,
`get_request_by_signature`). -/
def recOfRow (r : Row) : Rec :=
  { request_key := r.request_key
    location_slug := r.location_slug
    location_key := (r.location_key.getD "")
    bundle_slug := r.bundle_slug
    lat := r.lat
    lon := r.lon
    elevation_m := r.elevation_m
    name := r.name
    selected := r.selected
    requested_by := r.requested_by
    requested_at := r.requested_at
    first_seen := r.first_seen
    last_seen := r.last_seen }

/-- `UPDATE requests SET ... WHERE request_key = k` (the key is the PRIMARY
KEY, so at most one row matches in any sqlite-legal store). -/
def updateRows (s : Store) (k : String) (f : Row → Row) : Store :=
  s.map (fun r => if r.request_key = k then f r else r)

/-- `DELETE FROM requests WHERE request_key = k`. -/
def deleteRows (s : Store) (k : String) : Store :=
  s.filter (fun r => r.request_key ≠ k)

/-- sqlite BINARY collation on TEXT: bytewise comparison of the UTF-8
encodings, which coincides with codepoint-lexicographic order. -/
def charListLtb : List Char → List Char → Bool
  | _, [] => false
  | [], _ :: _ => true
  | a :: as, b :: bs =>
    if a.toNat < b.toNat then true
    else if b.toNat < a.toNat then false
    else charListLtb as bs

/-- Strict BINARY-collation order on strings. -/
def strLt (a b : String) : Prop :=
  charListLtb a.data b.data = true

/-- The `ORDER BY location_slug, bundle_slug, request_key` read order of
`list_requests` under the BINARY collation. -/
def recReadLE (a b : Rec) : Prop :=
  strLt a.location_slug b.location_slug ∨
    (a.location_slug = b.location_slug ∧
      (strLt a.bundle_slug b.bundle_slug ∨
        (a.bundle_slug = b.bundle_slug ∧
          (strLt a.request_key b.request_key ∨ a.request_key = b.request_key))))

instance : DecidableRel recReadLE := fun a b => by
  unfold recReadLE strLt; infer_instance

/-- `list_requests` of `src/satpass/requests_db.py`. -/
def list_requests (s : Store) : List Rec :=
  List.insertionSort recReadLE (s.map recOfRow)

/-- `get_request_by_key` of `src/satpass/requests_db.py`. -/
def get_request_by_key (s : Store) (request_key : String) : Option Rec :=
  (s.find? (fun r => r.request_key = request_key)).map recOfRow

/-- `get_request_by_signature` of `src/satpass/requests_db.py`: the SQL
comparison of the TEXT payload with `selection_payload(ids)` is, by
injectivity of the canonical rendering, equality of the row's list with the
normalised ids. -/
def get_request_by_signature (s : Store) (location_key bundle_slug : String)
    (selected_norad_ids : List Int) : Option Rec :=
  (s.find? (fun r =>
      r.location_key = some location_key ∧ r.bundle_slug = bundle_slug ∧
        r.selected = normalize_norad_ids selected_norad_ids)).map recOfRow

/-- Rows `ensure_location_keys` backfills: `location_key IS NULL OR
location_key = ''`. -/
def missingLocKey (r : Row) : Prop :=
  r.location_key = none ∨ r.location_key = some ""

instance : DecidablePred missingLocKey := fun r => by
  unfold missingLocKey; infer_instance

/-- `ensure_location_keys` of `src/satpass/requests_db.py`: backfill the
coordinate-derived key on every row missing it; returns the new store and the
number of backfilled rows. -/
def ensure_location_keys (s : Store) (precision : Nat) : Store × Nat :=
  (s.map (fun r =>
      if missingLocKey r then
        { r with location_key := some (location_key_for r.lat r.lon precision) }
      else r),
    s.countP (fun r => decide (missingLocKey r)))

/-- The update statement shared by both branches of `upsert_request`:
`SET last_seen = now, name = COALESCE(name, req.name), requested_by =
COALESCE(requested_by, rb), requested_at = COALESCE(requested_at, ra),
location_key = COALESCE(location_key, lk)`. -/
def upsertTouch (now : Nat) (reqName : Option String) (rb ra : Option String)
    (lk : String) (row : Row) : Row :=
  { row with
    last_seen := now
    name := coalesce row.name reqName
    requested_by := coalesce row.requested_by rb
    requested_at := coalesce row.requested_at ra
    location_key := coalesce row.location_key (some lk) }

/-- `upsert_request` of `src/satpass/requests_db.py`.  The wall clock
(`_utc_now`) is passed explicitly as `now`; the function returns the new store
together with the returned `RequestRecord`. -/
def upsert_request (s : Store) (req : RequestedLocation) (precision : Nat) (now : Nat) :
    Store × Rec :=
  let location_slug := resolved_location_slug req precision
  let location_key := location_key_for req.lat req.lon precision
  let selected := normalize_norad_ids (req.selected_norad_ids.getD [])
  let key := request_key_for location_slug req.bundle_slug selected
  let s0 := (ensure_location_keys s precision).1
  match get_request_by_signature s0 location_key req.bundle_slug selected with
  | some ex =>
    let rb := pyOr ex.requested_by req.requested_by
    let ra := pyOr ex.requested_at req.requested_at
    (updateRows s0 ex.request_key (upsertTouch now req.name rb ra location_key),
      { ex with
        location_key := pyOrS ex.location_key location_key
        name := pyOr ex.name req.name
        requested_by := rb
        requested_at := ra
        last_seen := now })
  | none =>
    match s0.find? (fun r => r.request_key = key) with
    | some existing =>
      let rb := pyOr existing.requested_by req.requested_by
      let ra := pyOr existing.requested_at req.requested_at
      (updateRows s0 key (upsertTouch now req.name rb ra location_key),
        { request_key := key
          location_slug := location_slug
          location_key := location_key
          bundle_slug := req.bundle_slug
          lat := req.lat
          lon := req.lon
          elevation_m := req.elevation_m
          name := req.name
          selected := selected
          requested_by := rb
          requested_at := ra
          first_seen := existing.first_seen
          last_seen := now })
    | none =>
      (s0 ++ [{ request_key := key
                location_slug := location_slug
                location_key := some location_key
                bundle_slug := req.bundle_slug
                lat := req.lat
                lon := req.lon
                elevation_m := req.elevation_m
                name := req.name
                selected := selected
                requested_by := req.requested_by
                requested_at := req.requested_at
                first_seen := now
                last_seen := now }],
        { request_key := key
          location_slug := location_slug
          location_key := location_key
          bundle_slug := req.bundle_slug
          lat := req.lat
          lon := req.lon
          elevation_m := req.elevation_m
          name := req.name
          selected := selected
          requested_by := req.requested_by
          requested_at := req.requested_at
          first_seen := now
          last_seen := now })

/-- The row the INSERT branch of `upsert_request` writes. -/
def freshRow (req : RequestedLocation) (precision now : Nat) : Row :=
  { request_key :=
      request_key_for (resolved_location_slug req precision) req.bundle_slug
        (normalize_norad_ids (req.selected_norad_ids.getD []))
    location_slug := resolved_location_slug req precision
    location_key := some (location_key_for req.lat req.lon precision)
    bundle_slug := req.bundle_slug
    lat := req.lat
    lon := req.lon
    elevation_m := req.elevation_m
    name := req.name
    selected := normalize_norad_ids (req.selected_norad_ids.getD [])
    requested_by := req.requested_by
    requested_at := req.requested_at
    first_seen := now
    last_seen := now }

/-- The dedup signature of a read-view record: `(location_key, bundle_slug,
selection_payload(selected_norad_ids))`, the payload modelled by the
normalised list it renders. -/
def recSig (r : Rec) : String × String × List Int :=
  (r.location_key, r.bundle_slug, normalize_norad_ids r.selected)

/-- The merge statement shared by `dedupe_requests_by_signature` and the
collision branch of `canonicalize_requests`: overwrite the surviving row's
attribution and timestamps from the (snapshot) survivor record `ex` and the
currently processed record `cur`. -/
def mergeTouch (ex cur : Rec) (row : Row) : Row :=
  { row with
    name := pyOr ex.name cur.name
    requested_by := pyOr ex.requested_by cur.requested_by
    requested_at := pyOr ex.requested_at cur.requested_at
    first_seen := min ex.first_seen cur.first_seen
    last_seen := max ex.last_seen cur.last_seen }

/-- The per-record body of the `dedupe_requests_by_signature` loop, threading
the live store, the `seen` dictionary and the removal counter. -/
def dedupeStep (acc : Store × List ((String × String × List Int) × Rec) × Nat) (rec : Rec) :
    Store × List ((String × String × List Int) × Rec) × Nat :=
  match (acc.2.1.find? (fun p => p.1 = recSig rec)).map Prod.snd with
  | none => (acc.1, acc.2.1 ++ [(recSig rec, rec)], acc.2.2)
  | some ex =>
    (deleteRows (updateRows acc.1 ex.request_key (mergeTouch ex rec)) rec.request_key,
      acc.2.1, acc.2.2 + 1)

/-- The `first_seen`-ascending processing order of
`dedupe_requests_by_signature`: Python's stable `sorted(..., key=first_seen)`
over the `list_requests` read order. -/
def dedupeSnapshot (s : Store) (precision : Nat) : List Rec :=
  List.insertionSort (fun a b => a.first_seen ≤ b.first_seen)
    (list_requests (ensure_location_keys s precision).1)

/-- `dedupe_requests_by_signature` of `src/satpass/requests_db.py`: returns
the new store and the number of removed records. -/
def dedupe_requests_by_signature (s : Store) (precision : Nat) : Store × Nat :=
  let s0 := (ensure_location_keys s precision).1
  let out := (dedupeSnapshot s precision).foldl dedupeStep (s0, [], 0)
  (out.1, out.2.2)

/-- The selection variable of the `canonicalize_requests` loop before the
cap: the normalised stored selection, or the bundle default when it is
empty. -/
def canonBase (avail : String → List Int) (cap : Int) (bundle : String)
    (stored : List Int) : List Int :=
  if normalize_norad_ids stored = [] then default_selection (avail bundle) cap
  else normalize_norad_ids stored

/-- The selection the `canonicalize_requests` loop feeds into
`canonicalize_selection` for a record: the stored selection (or the default
if empty), truncated at the cap. -/
def canonCapped (avail : String → List Int) (cap : Int) (bundle : String)
    (stored : List Int) : List Int :=
  if canonBase avail cap bundle stored ≠ [] ∧
      ((canonBase avail cap bundle stored).length : Int) > cap then
    pySlice cap (canonBase avail cap bundle stored)
  else canonBase avail cap bundle stored

/-- The canonical selection `canonicalize_requests` computes for a record:
stored selection (or the default if empty), capped, then filtered and
collapsed against the bundle's availability. -/
def canonicalOf (avail : String → List Int) (cap : Int) (bundle : String)
    (stored : List Int) : List Int :=
  canonicalize_selection (canonCapped avail cap bundle stored) (avail bundle)

/-- The per-record body of the `canonicalize_requests` loop.  `avail b` is
`bundle_available_ids.get(b, [])`. -/
def canonStep (avail : String → List Int) (cap : Int) (acc : Store × Nat) (rec : Rec) :
    Store × Nat :=
  let s := acc.1
  let canonical := canonicalOf avail cap rec.bundle_slug rec.selected
  if canonical = rec.selected then acc
  else
    let new_key := request_key_for rec.location_slug rec.bundle_slug canonical
    if new_key = rec.request_key then acc
    else
      match get_request_by_key s new_key with
      | some ex =>
        (deleteRows (updateRows s new_key (mergeTouch ex rec)) rec.request_key, acc.2 + 1)
      | none =>
        (updateRows s rec.request_key
            (fun row => { row with request_key := new_key, selected := canonical }),
          acc.2 + 1)

/-- `canonicalize_requests` of `src/satpass/requests_db.py`: returns the new
store and the rewritten count. -/
def canonicalize_requests (s : Store) (avail : String → List Int) (cap : Int) :
    Store × Nat :=
  (list_requests s).foldl (canonStep avail cap) (s, 0)

/-- A store whose rows carry pairwise distinct request keys (the sqlite
PRIMARY KEY invariant). -/
def KeysNodup (s : Store) : Prop :=
  (s.map (fun r => r.request_key)).Nodup

instance : DecidablePred KeysNodup := fun s => by
  unfold KeysNodup; infer_instance

/-- The dedup signature of a stored row, as `dedupe_requests_by_signature`
computes it from the read view. -/
def rowSig (row : Row) : String × String × List Int :=
  recSig (recOfRow row)

instance : IsTotal Rec (fun a b => a.first_seen ≤ b.first_seen) :=
  ⟨fun a b => Nat.le_total a.first_seen b.first_seen⟩

instance : IsTrans Rec (fun a b => a.first_seen ≤ b.first_seen) :=
  ⟨fun _ _ _ hab hbc => Nat.le_trans hab hbc⟩

/-- Loop invariant of `dedupe_requests_by_signature`: `st0` is the backfilled
store the pass started from, `snap = done ++ rest` its processing order,
`st`, `seen`, `removed` the current loop state.  `surv` records, per `seen`
entry, that the surviving row is the first group member's original row,
overwritten — when duplicates have been merged — from the survivor's snapshot
record and the most recently merged duplicate. -/
structure DedupInv (st0 : Store) (done rest : List Rec) (st : Store)
    (seen : List ((String × String × List Int) × Rec)) (removed : Nat) : Prop where
  keys : KeysNodup st
  seenSigs : (seen.map Prod.fst).Nodup
  seenSig : ∀ p ∈ seen, recSig p.2 = p.1
  seenDone : ∀ p ∈ seen, p.2 ∈ done
  doneSeen : ∀ r ∈ done, ∃ p ∈ seen, p.1 = recSig r
  lenEq : st0.length = st.length + removed
  restRows : ∀ rec ∈ rest, ∃ row ∈ st0, row ∈ st ∧ rec = recOfRow row
  cover : ∀ row ∈ st, (∃ p ∈ seen, p.2.request_key = row.request_key) ∨
      (∃ rec ∈ rest, rec.request_key = row.request_key)
  surv : ∀ p ∈ seen, ∃ row0 ∈ st0, p.2 = recOfRow row0 ∧
      ∃ rowc ∈ st, rowc.request_key = p.2.request_key ∧
        (((done.filter (fun r => recSig r = p.1)).tail = [] ∧ rowc = row0) ∨
          ∃ d, ((done.filter (fun r => recSig r = p.1)).tail).getLast? = some d ∧
            rowc = mergeTouch p.2 d row0)
  headP : ∀ p ∈ seen, (done.filter (fun r => recSig r = p.1)).head? = some p.2
  snapKeys : ((done ++ rest).map (fun r : Rec => r.request_key)).Nodup

/-- A live record the canonicalization loop would leave untouched: its
canonical selection already equals its stored selection (step-5 skip) or the
derived key equals its current key (the `new_key == record.request_key`
skip). -/
def StableRec (avail : String → List Int) (cap : Int) (rec : Rec) : Prop :=
  canonicalOf avail cap rec.bundle_slug rec.selected = rec.selected ∨
    request_key_for rec.location_slug rec.bundle_slug
      (canonicalOf avail cap rec.bundle_slug rec.selected) = rec.request_key

/-- A row produced by the empty-canonical rewrite of the pass: empty stored
selection under the selection-free request key.  Such a row may be rewritten
again by the next pass when the bundle's defaults refill it. -/
def PendingRec (rec : Rec) : Prop :=
  rec.selected = [] ∧
    rec.request_key = request_key_for rec.location_slug rec.bundle_slug []

/-- The snapshot record `rec` still describes the live row `row` in every
field the canonicalization step reads. -/
def recMatchesRow (rec : Rec) (row : Row) : Prop :=
  row.request_key = rec.request_key ∧ row.location_slug = rec.location_slug ∧
    row.bundle_slug = rec.bundle_slug ∧ row.selected = rec.selected

theorem normalize_norad_sorted_le (l : List Int) :
    List.Sorted (· ≤ ·) (normalize_norad_ids l) :=
  List.sorted_insertionSort _ _

theorem normalize_norad_nodup (l : List Int) : (normalize_norad_ids l).Nodup :=
  (List.perm_insertionSort _ _).nodup_iff.mpr (List.nodup_dedup l)

theorem normalize_norad_sorted_lt (l : List Int) :
    List.Sorted (· < ·) (normalize_norad_ids l) :=
  (normalize_norad_sorted_le l).lt_of_le (normalize_norad_nodup l)

theorem mem_normalize_norad {x : Int} {l : List Int} : x ∈ normalize_norad_ids l ↔ x ∈ l :=
  (List.perm_insertionSort _ _).mem_iff.trans (List.mem_dedup)

theorem normalize_norad_eq_self {l : List Int} (h : List.Sorted (· < ·) l) :
    normalize_norad_ids l = l := by
  unfold normalize_norad_ids
  rw [List.dedup_eq_self.mpr h.nodup]
  exact List.eq_of_perm_of_sorted (List.perm_insertionSort _ _)
    (List.sorted_insertionSort _ _) h.le_of_lt

theorem normalize_norad_idem (l : List Int) :
    normalize_norad_ids (normalize_norad_ids l) = normalize_norad_ids l :=
  normalize_norad_eq_self (normalize_norad_sorted_lt l)

theorem normalize_norad_eq_nil {l : List Int} : normalize_norad_ids l = [] ↔ l = [] := by
  constructor
  · intro h
    by_contra hne
    rcases List.exists_mem_of_ne_nil l hne with ⟨x, hx⟩
    exact absurd (mem_normalize_norad.mpr hx) (by simp [h])
  · intro h; subst h; rfl

/-- Claim C8: request-key derivation is a pure deterministic function of
(location_slug, bundle_slug, normalized selection): it is
`location_slug--bundle_slug` for an empty selection and
`location_slug--bundle_slug--sel-<fingerprint>` otherwise, and any two
selections with equal normalisation yield byte-identical keys. -/
theorem request_key_deterministic (ls bs : String) (sel : List Int) :
    (request_key_for ls bs sel =
      if normalize_norad_ids sel = [] then ls ++ "--" ++ bs
      else ls ++ "--" ++ bs ++ "--sel-" ++ selection_hash (normalize_norad_ids sel))
    ∧ ∀ sel2 : List Int, normalize_norad_ids sel = normalize_norad_ids sel2 →
        request_key_for ls bs sel = request_key_for ls bs sel2 := by
  constructor
  · rfl
  · intro sel2 h
    unfold request_key_for
    rw [h]

theorem request_key_deterministic_witness :
    (request_key_for "lat0p0_lon0p0" "stations" [25544, 7, 25544] =
      if normalize_norad_ids [25544, 7, 25544] = [] then "lat0p0_lon0p0" ++ "--" ++ "stations"
      else "lat0p0_lon0p0" ++ "--" ++ "stations" ++ "--sel-" ++
        selection_hash (normalize_norad_ids [25544, 7, 25544]))
    ∧ request_key_for "lat0p0_lon0p0" "stations" [25544, 7, 25544] =
        request_key_for "lat0p0_lon0p0" "stations" [7, 25544] :=
  ⟨(request_key_deterministic "lat0p0_lon0p0" "stations" [25544, 7, 25544]).1,
    (request_key_deterministic "lat0p0_lon0p0" "stations" [25544, 7, 25544]).2
      [7, 25544] (by decide)⟩

/-- Claim C9: for selections and availability lists that are both non-empty
after normalisation, `canonicalize_selection` returns the normalised
intersection of selected with available, except that an intersection equal to
the full available set collapses to the empty selection; in particular
selecting exactly the full available set canonicalizes to empty. -/
theorem canonicalize_selection_intersects (sel avail : List Int)
    (hs : normalize_norad_ids sel ≠ []) (ha : normalize_norad_ids avail ≠ []) :
    (canonicalize_selection sel avail =
      if ((normalize_norad_ids sel).filter (· ∈ normalize_norad_ids avail)).toFinset =
          (normalize_norad_ids avail).toFinset then []
      else (normalize_norad_ids sel).filter (· ∈ normalize_norad_ids avail))
    ∧ (normalize_norad_ids sel = normalize_norad_ids avail →
        canonicalize_selection sel avail = []) := by
  have hcf : canonFilter (normalize_norad_ids sel) (normalize_norad_ids avail) =
      (normalize_norad_ids sel).filter (· ∈ normalize_norad_ids avail) := by
    unfold canonFilter
    exact if_pos ⟨hs, ha⟩
  have hmain : canonicalize_selection sel avail =
      if ((normalize_norad_ids sel).filter (· ∈ normalize_norad_ids avail)).toFinset =
          (normalize_norad_ids avail).toFinset then []
      else (normalize_norad_ids sel).filter (· ∈ normalize_norad_ids avail) := by
    show (if _ ∧ _ ∧ _ then _ else _) = _
    rw [hcf]
    by_cases hf :
        ((normalize_norad_ids sel).filter (· ∈ normalize_norad_ids avail)).toFinset =
          (normalize_norad_ids avail).toFinset
    · have hne : (normalize_norad_ids sel).filter (· ∈ normalize_norad_ids avail) ≠ [] := by
        intro h0
        rw [h0] at hf
        exact ha ((List.toFinset_eq_empty_iff _).mp hf.symm)
      rw [if_pos ⟨hne, ha, hf⟩, if_pos hf]
    · rw [if_neg (fun hc => hf hc.2.2), if_neg hf]
  refine ⟨hmain, fun heq => ?_⟩
  have hfa : (normalize_norad_ids avail).filter (· ∈ normalize_norad_ids avail) =
      normalize_norad_ids avail :=
    List.filter_eq_self.mpr (fun a ha => by simpa using ha)
  rw [hmain, heq, hfa, if_pos rfl]

theorem canonicalize_selection_intersects_witness :
    (normalize_norad_ids [3, 1] ≠ [] ∧ normalize_norad_ids [1, 2, 3] ≠ []) ∧
    (canonicalize_selection [3, 1] [1, 2, 3] =
      if ((normalize_norad_ids [3, 1]).filter (· ∈ normalize_norad_ids [1, 2, 3])).toFinset =
          (normalize_norad_ids [1, 2, 3]).toFinset then []
      else (normalize_norad_ids [3, 1]).filter (· ∈ normalize_norad_ids [1, 2, 3])) ∧
    canonicalize_selection [2, 3, 1] [1, 2, 3] = [] :=
  ⟨⟨by decide, by decide⟩,
    (canonicalize_selection_intersects [3, 1] [1, 2, 3] (by decide) (by decide)).1,
    (canonicalize_selection_intersects [2, 3, 1] [1, 2, 3] (by decide) (by decide)).2
      (by decide)⟩

/-- Claim C10: with an empty availability argument `canonicalize_selection`
returns the normalised selection unchanged; for every input pair the result
is sorted strictly ascending (hence duplicate-free) and is a subset of the
normalised selection. -/
theorem canonicalize_selection_shape (sel avail : List Int) :
    (normalize_norad_ids avail = [] → canonicalize_selection sel avail = normalize_norad_ids sel)
    ∧ List.Sorted (· < ·) (canonicalize_selection sel avail)
    ∧ ∀ x ∈ canonicalize_selection sel avail, x ∈ normalize_norad_ids sel := by
  have hcf2 : ∀ s a : List Int, canonFilter s a = s.filter (· ∈ a) ∨ canonFilter s a = s := by
    intro s a
    unfold canonFilter
    by_cases h : s ≠ [] ∧ a ≠ []
    · exact Or.inl (if_pos h)
    · exact Or.inr (if_neg h)
  refine ⟨fun ha => ?_, ?_, ?_⟩
  · show (if _ ∧ _ ∧ _ then _ else _) = _
    have : canonFilter (normalize_norad_ids sel) (normalize_norad_ids avail) =
        normalize_norad_ids sel := by
      unfold canonFilter
      exact if_neg (fun hc => hc.2 ha)
    rw [this, if_neg (fun hc => hc.2.1 ha)]
  · show List.Sorted _ (if _ ∧ _ ∧ _ then _ else _)
    split
    · exact List.sorted_nil
    · rcases hcf2 (normalize_norad_ids sel) (normalize_norad_ids avail) with h | h <;> rw [h]
      · exact ((normalize_norad_sorted_lt sel).filter _)
      · exact normalize_norad_sorted_lt sel
  · intro x hx
    have hx2 : x ∈ (if _ ∧ _ ∧ _ then ([] : List Int) else
        canonFilter (normalize_norad_ids sel) (normalize_norad_ids avail)) := hx
    split at hx2
    · exact absurd hx2 (List.not_mem_nil x)
    · rcases hcf2 (normalize_norad_ids sel) (normalize_norad_ids avail) with h | h <;>
        rw [h] at hx2
      · exact List.mem_of_mem_filter hx2
      · exact hx2

theorem canonicalize_selection_shape_witness :
    canonicalize_selection [5, 2] [] = normalize_norad_ids [5, 2]
    ∧ List.Sorted (· < ·) (canonicalize_selection [5, 2] [])
    ∧ ∀ x ∈ canonicalize_selection [5, 2] [], x ∈ normalize_norad_ids [5, 2] :=
  ⟨(canonicalize_selection_shape [5, 2] []).1 (by decide),
    (canonicalize_selection_shape [5, 2] []).2.1,
    (canonicalize_selection_shape [5, 2] []).2.2⟩

/-- Claim C1 counterexample: a live record whose stored selection `[2, 1]`
differs from its canonical selection `[1, 2]` but whose derived request key
equals its current key is not rewritten: the pass leaves the store unchanged
and reports a rewritten count of 0 (the loop continues at the
`new_key == record.request_key` guard instead of updating the row). -/
theorem canonicalize_key_unchanged_cex :
    canonicalize_requests
        [⟨request_key_for "loc" "b" [1, 2], "loc", some "k", "b", 0, 0, none, none, [2, 1],
          none, none, 1, 1⟩]
        (fun b => if b = "b" then [1, 2, 3] else []) 12 =
      ([⟨request_key_for "loc" "b" [1, 2], "loc", some "k", "b", 0, 0, none, none, [2, 1],
          none, none, 1, 1⟩], 0)
    ∧ canonicalOf (fun b => if b = "b" then [1, 2, 3] else []) 12 "b" [2, 1] = [1, 2]
    ∧ ([1, 2] : List Int) ≠ [2, 1] := by
  refine ⟨?_, by decide, by decide⟩
  decide

/-- Claim C1 (amended): when a live record's recomputed canonical selection
differs from its stored selection but the newly derived request key equals its
current request key, the canonicalization pass leaves that record's
processing step a complete no-op — the store is untouched and the record is
not counted in the rewritten count. -/
theorem canonStep_key_unchanged_skips (avail : String → List Int) (cap : Int)
    (acc : Store × Nat) (rec : Rec)
    (hdiff : canonicalOf avail cap rec.bundle_slug rec.selected ≠ rec.selected)
    (hkey : request_key_for rec.location_slug rec.bundle_slug
        (canonicalOf avail cap rec.bundle_slug rec.selected) = rec.request_key) :
    canonStep avail cap acc rec = acc := by
  unfold canonStep
  rw [if_neg hdiff, if_pos hkey]

theorem canonStep_key_unchanged_skips_witness :
    canonicalOf (fun b => if b = "b" then [1, 2, 3] else []) 12 "b" [2, 1] ≠ [2, 1]
    ∧ canonStep (fun b => if b = "b" then [1, 2, 3] else []) 12 ([], 0)
        ⟨request_key_for "loc" "b" [1, 2], "loc", "k", "b", 0, 0, none, none, [2, 1],
          none, none, 1, 1⟩ = ([], 0) :=
  ⟨by decide,
    canonStep_key_unchanged_skips (fun b => if b = "b" then [1, 2, 3] else []) 12 ([], 0)
      ⟨request_key_for "loc" "b" [1, 2], "loc", "k", "b", 0, 0, none, none, [2, 1],
        none, none, 1, 1⟩ (by decide) (by decide)⟩

/-- Claim C2 counterexample: upserting (47.6062, -122.3321, "stations",
selection []) and then the same location/bundle with selection [25544] at
precision 4 leaves two live records, not one — the second request matches
neither the signature (its normalised selection differs) nor the exact key
(its key carries a selection fingerprint), so it inserts a fresh row. -/
theorem upsert_scenario_cex :
    ((upsert_request
        (upsert_request []
          ⟨none, some "Seattle", mkRat 476062 10000, mkRat (-1223321) 10000, some 0, "stations",
            none, some "alice", none⟩ 4 100).1
        ⟨none, some "Seattle", mkRat 476062 10000, mkRat (-1223321) 10000, some 0, "stations",
          some [25544], some "bob", none⟩ 4 200).1).length = 2
    ∧ (2 : Nat) ≠ 1 := by
  refine ⟨?_, by decide⟩
  decide

/-- Claim C2 (amended): the scenario leaves exactly two live records: the
first upsert's record keeps its stored selection `[]` and remains the record
found via the signature lookup path for the empty selection, while the second
upsert inserts a separate record with selection `[25544]` under a
selection-fingerprinted key. -/
theorem upsert_scenario_records : (((upsert_request
        (upsert_request []
          ⟨none, some "Seattle", mkRat 476062 10000, mkRat (-1223321) 10000, some 0, "stations",
            none, some "alice", none⟩ 4 100).1
        ⟨none, some "Seattle", mkRat 476062 10000, mkRat (-1223321) 10000, some 0, "stations",
          some [25544], some "bob", none⟩ 4 200).1).map
        (fun r => (r.request_key, r.selected)) =
      [("lat47p6062_lonm122p3321--stations", []),
        ("lat47p6062_lonm122p3321--stations--sel-1926cccf", [25544])])
    ∧ (get_request_by_signature
        (upsert_request
          (upsert_request []
            ⟨none, some "Seattle", mkRat 476062 10000, mkRat (-1223321) 10000, some 0, "stations",
              none, some "alice", none⟩ 4 100).1
          ⟨none, some "Seattle", mkRat 476062 10000, mkRat (-1223321) 10000, some 0, "stations",
            some [25544], some "bob", none⟩ 4 200).1
        "lat47p6062_lonm122p3321" "stations" []).map (fun r => (r.request_key, r.selected)) =
      some ("lat47p6062_lonm122p3321--stations", []) := by
  constructor
  · decide
  · decide

theorem ensure_noop {s : Store} (p : Nat) (h : ∀ r ∈ s, ¬ missingLocKey r) :
    (ensure_location_keys s p).1 = s := by
  show List.map _ s = s
  induction s with
  | nil => rfl
  | cons a t ih =>
    simp only [List.map_cons]
    rw [if_neg (h a (List.mem_cons_self a t))]
    rw [ih (fun r hr => h r (List.mem_cons_of_mem a hr))]

theorem updateRows_getElem? (s : Store) (k : String) (f : Row → Row) (j : Nat) :
    (updateRows s k f)[j]? =
      (s[j]?).map (fun r => if r.request_key = k then f r else r) := by
  unfold updateRows
  exact List.getElem?_map _ _ _

theorem updateRows_length (s : Store) (k : String) (f : Row → Row) :
    (updateRows s k f).length = s.length :=
  List.length_map _ _

theorem updateRows_frame {s : Store} (hkeys : KeysNodup s) (k : String) (f : Row → Row)
    {i : Nat} {row : Row} (hi : s[i]? = some row) (hrow : row.request_key = k) :
    ∀ j, j ≠ i → (updateRows s k f)[j]? = s[j]? := by
  intro j hj
  rw [updateRows_getElem?]
  cases hsj : s[j]? with
  | none => rfl
  | some r =>
    simp only [Option.map_some']
    have hrk : r.request_key ≠ k := by
      intro hk
      apply hj
      have hj' : j < s.length := by
        by_contra hlen
        rw [List.getElem?_eq_none (Nat.le_of_not_lt hlen)] at hsj
        exact Option.noConfusion hsj
      have hmapj : (s.map (fun r => r.request_key))[j]? = some k := by
        rw [List.getElem?_map, hsj]
        simp [hk]
      have hmapi : (s.map (fun r => r.request_key))[i]? = some k := by
        rw [List.getElem?_map, hi]
        simp [hrow]
      exact (List.getElem?_inj (by simpa using hj') hkeys (hmapj.trans hmapi.symm))
    rw [if_neg hrk]

theorem upsert_request_sig_eq (s : Store) (req : RequestedLocation) (p now : Nat)
    (ex : Rec) (hlk : ∀ r ∈ s, ¬ missingLocKey r)
    (hsig : get_request_by_signature s (location_key_for req.lat req.lon p) req.bundle_slug
        (normalize_norad_ids (req.selected_norad_ids.getD [])) = some ex) :
    upsert_request s req p now =
      (updateRows s ex.request_key
        (upsertTouch now req.name (pyOr ex.requested_by req.requested_by)
          (pyOr ex.requested_at req.requested_at) (location_key_for req.lat req.lon p)),
        { ex with
          location_key := pyOrS ex.location_key (location_key_for req.lat req.lon p)
          name := pyOr ex.name req.name
          requested_by := pyOr ex.requested_by req.requested_by
          requested_at := pyOr ex.requested_at req.requested_at
          last_seen := now }) := by
  simp only [upsert_request, ensure_noop p hlk, hsig]

theorem upsert_request_key_eq (s : Store) (req : RequestedLocation) (p now : Nat)
    (existing : Row) (hlk : ∀ r ∈ s, ¬ missingLocKey r)
    (hsig : get_request_by_signature s (location_key_for req.lat req.lon p) req.bundle_slug
        (normalize_norad_ids (req.selected_norad_ids.getD [])) = none)
    (hfind : s.find? (fun r => r.request_key =
        request_key_for (resolved_location_slug req p) req.bundle_slug
          (normalize_norad_ids (req.selected_norad_ids.getD []))) = some existing) :
    upsert_request s req p now =
      (updateRows s
          (request_key_for (resolved_location_slug req p) req.bundle_slug
            (normalize_norad_ids (req.selected_norad_ids.getD [])))
          (upsertTouch now req.name (pyOr existing.requested_by req.requested_by)
            (pyOr existing.requested_at req.requested_at)
            (location_key_for req.lat req.lon p)),
        { request_key :=
            request_key_for (resolved_location_slug req p) req.bundle_slug
              (normalize_norad_ids (req.selected_norad_ids.getD []))
          location_slug := resolved_location_slug req p
          location_key := location_key_for req.lat req.lon p
          bundle_slug := req.bundle_slug
          lat := req.lat
          lon := req.lon
          elevation_m := req.elevation_m
          name := req.name
          selected := normalize_norad_ids (req.selected_norad_ids.getD [])
          requested_by := pyOr existing.requested_by req.requested_by
          requested_at := pyOr existing.requested_at req.requested_at
          first_seen := existing.first_seen
          last_seen := now }) := by
  simp only [upsert_request, ensure_noop p hlk, hsig, hfind]

theorem upsert_request_ins_eq (s : Store) (req : RequestedLocation) (p now : Nat)
    (hlk : ∀ r ∈ s, ¬ missingLocKey r)
    (hsig : get_request_by_signature s (location_key_for req.lat req.lon p) req.bundle_slug
        (normalize_norad_ids (req.selected_norad_ids.getD [])) = none)
    (hfind : s.find? (fun r => r.request_key =
        request_key_for (resolved_location_slug req p) req.bundle_slug
          (normalize_norad_ids (req.selected_norad_ids.getD []))) = none) :
    upsert_request s req p now =
      (s ++ [freshRow req p now], recOfRow (freshRow req p now)) := by
  simp only [upsert_request, ensure_noop p hlk, hsig, hfind]
  rfl

/-- Claim C6 counterexample: on a store holding one legacy row whose
`location_key` is NULL, a single upsert both rewrites that row (the lazy
backfill inside `upsert_request`) and inserts a new row — its write footprint
is an update and an insert at once, not "at most one insert or at most one
update, never both". -/
theorem upsert_footprint_cex :
    ((upsert_request
        [⟨"legacy", "oloc", none, "otherbundle", 1, 1, none, none, [], none, none, 5, 5⟩]
        ⟨none, some "Seattle", mkRat 476062 10000, mkRat (-1223321) 10000, some 0, "stations",
          none, some "alice", none⟩ 4 100).1.length = 1 + 1)
    ∧ ((upsert_request
        [⟨"legacy", "oloc", none, "otherbundle", 1, 1, none, none, [], none, none, 5, 5⟩]
        ⟨none, some "Seattle", mkRat 476062 10000, mkRat (-1223321) 10000, some 0, "stations",
          none, some "alice", none⟩ 4 100).1[0]? ≠
      some ⟨"legacy", "oloc", none, "otherbundle", 1, 1, none, none, [], none, none, 5, 5⟩) := by
  constructor
  · decide
  · decide

/-- Claim C6 (amended): on a store in which every row already carries a
populated `location_key` (so the lazy backfill has nothing to do) and whose
request keys are unique (the PRIMARY KEY invariant), a single call to
`upsert_request` either appends exactly one new row leaving every existing
row unchanged, or leaves the row count unchanged and modifies at most one
position of the store. -/
theorem upsert_write_footprint (s : Store) (req : RequestedLocation) (p now : Nat)
    (hkeys : KeysNodup s) (hlk : ∀ r ∈ s, ¬ missingLocKey r) :
    (∃ row, (upsert_request s req p now).1 = s ++ [row]) ∨
    (∃ i : Nat, (upsert_request s req p now).1.length = s.length ∧
      ∀ j : Nat, j ≠ i → (upsert_request s req p now).1[j]? = s[j]?) := by
  cases hsig : get_request_by_signature s (location_key_for req.lat req.lon p) req.bundle_slug
      (normalize_norad_ids (req.selected_norad_ids.getD [])) with
  | some ex =>
    right
    rw [upsert_request_sig_eq s req p now ex hlk hsig]
    obtain ⟨row, hfrow, hrec⟩ :
        ∃ row, s.find? (fun r =>
            r.location_key = some (location_key_for req.lat req.lon p) ∧
              r.bundle_slug = req.bundle_slug ∧
              r.selected = normalize_norad_ids
                (normalize_norad_ids (req.selected_norad_ids.getD []))) = some row ∧
          recOfRow row = ex := by
      unfold get_request_by_signature at hsig
      exact Option.map_eq_some'.mp hsig
    have hmem : row ∈ s := List.mem_of_find?_eq_some hfrow
    obtain ⟨i, hi⟩ := List.mem_iff_getElem?.mp hmem
    refine ⟨i, updateRows_length _ _ _, fun j hj => ?_⟩
    exact updateRows_frame hkeys _ _ hi (by rw [← hrec]; rfl) j hj
  | none =>
    cases hfind : s.find? (fun r => r.request_key =
        request_key_for (resolved_location_slug req p) req.bundle_slug
          (normalize_norad_ids (req.selected_norad_ids.getD []))) with
    | some existing =>
      right
      rw [upsert_request_key_eq s req p now existing hlk hsig hfind]
      have hmem : existing ∈ s := List.mem_of_find?_eq_some hfind
      obtain ⟨i, hi⟩ := List.mem_iff_getElem?.mp hmem
      refine ⟨i, updateRows_length _ _ _, fun j hj => ?_⟩
      have hkey : existing.request_key =
          request_key_for (resolved_location_slug req p) req.bundle_slug
            (normalize_norad_ids (req.selected_norad_ids.getD [])) := by
        have := List.find?_some hfind
        exact of_decide_eq_true this
      exact updateRows_frame hkeys _ _ hi hkey j hj
    | none =>
      left
      exact ⟨_, by rw [upsert_request_ins_eq s req p now hlk hsig hfind]⟩

theorem upsert_write_footprint_witness :
    (∃ row, (upsert_request
        [⟨"legacy", "oloc", some "olockey", "otherbundle", 1, 1, none, none, [], none, none,
          5, 5⟩]
        ⟨none, some "Seattle", mkRat 476062 10000, mkRat (-1223321) 10000, some 0, "stations",
          none, some "alice", none⟩ 4 100).1 =
      [⟨"legacy", "oloc", some "olockey", "otherbundle", 1, 1, none, none, [], none, none,
          5, 5⟩] ++ [row]) ∨
    (∃ i : Nat, (upsert_request
        [⟨"legacy", "oloc", some "olockey", "otherbundle", 1, 1, none, none, [], none, none,
          5, 5⟩]
        ⟨none, some "Seattle", mkRat 476062 10000, mkRat (-1223321) 10000, some 0, "stations",
          none, some "alice", none⟩ 4 100).1.length =
        ([⟨"legacy", "oloc", some "olockey", "otherbundle", 1, 1, none, none, [], none, none,
          5, 5⟩] : Store).length ∧
      ∀ j : Nat, j ≠ i → (upsert_request
        [⟨"legacy", "oloc", some "olockey", "otherbundle", 1, 1, none, none, [], none, none,
          5, 5⟩]
        ⟨none, some "Seattle", mkRat 476062 10000, mkRat (-1223321) 10000, some 0, "stations",
          none, some "alice", none⟩ 4 100).1[j]? =
        ([⟨"legacy", "oloc", some "olockey", "otherbundle", 1, 1, none, none, [], none, none,
          5, 5⟩] : Store)[j]?) :=
  upsert_write_footprint
    [⟨"legacy", "oloc", some "olockey", "otherbundle", 1, 1, none, none, [], none, none, 5, 5⟩]
    ⟨none, some "Seattle", mkRat 476062 10000, mkRat (-1223321) 10000, some 0, "stations",
      none, some "alice", none⟩ 4 100 (by decide) (by decide)

theorem coalesce_pyOr (a b : Option String) : coalesce a (pyOr a b) = coalesce a b := by
  cases a <;> rfl

theorem coalesce_coalesce (a b : Option String) :
    coalesce (coalesce a b) b = coalesce a b := by
  cases a <;> cases b <;> rfl

theorem upsertTouch_key (now : Nat) (nm rb ra : Option String) (lk : String) (row : Row) :
    (upsertTouch now nm rb ra lk row).request_key = row.request_key := rfl

theorem upsertTouch_stable (t1 t2 : Nat) (nm rb ra : Option String) (lk : String) (row : Row) :
    upsertTouch t2 nm
        (pyOr (coalesce row.requested_by (pyOr row.requested_by rb)) rb)
        (pyOr (coalesce row.requested_at (pyOr row.requested_at ra)) ra) lk
        (upsertTouch t1 nm (pyOr row.requested_by rb) (pyOr row.requested_at ra) lk row) =
      { upsertTouch t1 nm (pyOr row.requested_by rb) (pyOr row.requested_at ra) lk row with
        last_seen := t2 } := by
  cases row
  simp [upsertTouch, coalesce_pyOr, coalesce_coalesce]

theorem updateRows_keys (s : Store) (k : String) (f : Row → Row)
    (hf : ∀ r, (f r).request_key = r.request_key) :
    (updateRows s k f).map (fun r => r.request_key) = s.map (fun r => r.request_key) := by
  unfold updateRows
  rw [List.map_map]
  apply List.map_congr_left
  intro r _
  by_cases h : r.request_key = k
  · simp [h, hf r]
  · simp [h]

theorem ensure_keys (s : Store) (p : Nat) :
    (ensure_location_keys s p).1.map (fun r => r.request_key) =
      s.map (fun r => r.request_key) := by
  show (s.map _).map _ = _
  rw [List.map_map]
  apply List.map_congr_left
  intro r _
  by_cases h : missingLocKey r
  · simp [h]
  · simp [h]

theorem location_slug_ne_empty (lat lon : ℚ) (p : Nat) :
    compute_location_slug lat lon p ≠ "" := by
  intro h
  have hl := congrArg String.length h
  rw [compute_location_slug] at hl
  simp [String.length_append] at hl
  exact absurd hl.1.1.1 (by decide)

theorem ensure_ok (s : Store) (p : Nat) :
    ∀ r ∈ (ensure_location_keys s p).1, ¬ missingLocKey r := by
  intro r hr
  have hr' : r ∈ s.map (fun r =>
      if missingLocKey r then
        { r with location_key := some (location_key_for r.lat r.lon p) }
      else r) := hr
  rw [List.mem_map] at hr'
  obtain ⟨r0, _, hr0⟩ := hr'
  subst hr0
  by_cases h : missingLocKey r0
  · rw [if_pos h]
    intro hmiss
    rcases hmiss with hmiss | hmiss
    · exact Option.noConfusion hmiss
    · have hk : location_key_for r0.lat r0.lon p = "" := by simpa using hmiss
      exact location_slug_ne_empty r0.lat r0.lon p hk
  · rw [if_neg h]
    exact h

theorem find?_updateRows_found {s : Store} (hkeys : KeysNodup s) {pred : Row → Bool}
    {row0 : Row} (hf : s.find? pred = some row0) {k : String} (hk : row0.request_key = k)
    (f : Row → Row) (hpred : pred (f row0) = true) :
    (updateRows s k f).find? pred = some (f row0) := by
  induction s with
  | nil => exact absurd hf (by simp)
  | cons a t ih =>
    by_cases hpa : pred a
    · rw [List.find?_cons_of_pos _ hpa] at hf
      have ha : a = row0 := by injection hf
      subst ha
      unfold updateRows
      rw [List.map_cons, if_pos hk, List.find?_cons_of_pos _ hpred]
    · rw [List.find?_cons_of_neg _ (by simpa using hpa)] at hf
      have hmem : row0 ∈ t := List.mem_of_find?_eq_some hf
      have hak : a.request_key ≠ k := by
        intro hak
        have : a.request_key ∈ t.map (fun r => r.request_key) :=
          List.mem_map.mpr ⟨row0, hmem, hk.trans hak.symm⟩
        exact (List.nodup_cons.mp hkeys).1 this
      have htkeys : KeysNodup t := (List.nodup_cons.mp hkeys).2
      have := ih htkeys hf
      unfold updateRows at this ⊢
      rw [List.map_cons, if_neg hak, List.find?_cons_of_neg _ (by simpa using hpa)]
      exact this

theorem find?_updateRows_none {s : Store} {pred : Row → Bool}
    (hf : s.find? pred = none) {k : String} (f : Row → Row)
    (hpred : ∀ r ∈ s, pred (f r) = pred r) :
    (updateRows s k f).find? pred = none := by
  rw [List.find?_eq_none] at hf ⊢
  intro x hx
  unfold updateRows at hx
  rw [List.mem_map] at hx
  obtain ⟨r, hr, hrx⟩ := hx
  by_cases hrk : r.request_key = k
  · rw [if_pos hrk] at hrx
    subst hrx
    rw [hpred r hr]
    exact hf r hr
  · rw [if_neg hrk] at hrx
    subst hrx
    exact hf r hr

theorem countP_keys_eq_one {l : List String} (h : l.Nodup) {k : String} (hk : k ∈ l) :
    l.countP (fun x => x = k) = 1 := by
  induction l with
  | nil => exact absurd hk (List.not_mem_nil k)
  | cons a t ih =>
    rw [List.countP_cons]
    by_cases hak : a = k
    · subst hak
      have hnt : a ∉ t := (List.nodup_cons.mp h).1
      have : t.countP (fun x => x = a) = 0 := by
        rw [List.countP_eq_zero]
        intro x hx
        simp only [decide_eq_true_eq]
        intro hxa
        exact hnt (hxa ▸ hx)
      simp [this]
    · have hkt : k ∈ t := by
        rcases List.mem_cons.mp hk with h1 | h1
        · exact absurd h1.symm hak
        · exact h1
      rw [ih (List.nodup_cons.mp h).2 hkt]
      simp [hak]

theorem countP_key_of_mem {s : Store} (hkeys : KeysNodup s) {row : Row} (hmem : row ∈ s) :
    s.countP (fun r => r.request_key = row.request_key) = 1 := by
  have h1 : s.countP (fun r => r.request_key = row.request_key) =
      (s.map (fun r => r.request_key)).countP (fun x => x = row.request_key) := by
    rw [List.countP_map]
    rfl
  rw [h1]
  exact countP_keys_eq_one hkeys
    (List.mem_map.mpr ⟨row, hmem, rfl⟩)

theorem upsert_ensure_absorb (s : Store) (req : RequestedLocation) (p now : Nat) :
    upsert_request s req p now =
      upsert_request (ensure_location_keys s p).1 req p now := by
  conv_rhs => rw [upsert_request]
  rw [ensure_noop p (ensure_ok s p)]
  rfl

theorem coalesce_idem (a : Option String) : coalesce a a = a := by
  cases a <;> rfl

theorem updateRows_congr (s : Store) (k : String) (f g : Row → Row)
    (h : ∀ r ∈ s, r.request_key = k → f r = g r) :
    updateRows s k f = updateRows s k g := by
  unfold updateRows
  apply List.map_congr_left
  intro r hr
  by_cases hk : r.request_key = k
  · rw [if_pos hk, if_pos hk, h r hr hk]
  · rw [if_neg hk, if_neg hk]

theorem hlk_updateRows {s : Store} (h : ∀ r ∈ s, ¬ missingLocKey r) (k : String)
    (t : Nat) (nm rb ra : Option String) (lk : String) :
    ∀ r ∈ updateRows s k (upsertTouch t nm rb ra lk), ¬ missingLocKey r := by
  intro r hr
  unfold updateRows at hr
  rw [List.mem_map] at hr
  obtain ⟨r0, hr0, hrr⟩ := hr
  by_cases hrk : r0.request_key = k
  · rw [if_pos hrk] at hrr
    subst hrr
    have h0 := h r0 hr0
    intro hmiss
    apply h0
    rcases hmiss with hm | hm
    · cases h0l : r0.location_key with
      | none => exact Or.inl h0l
      | some x =>
        exfalso
        have : (upsertTouch t nm rb ra lk r0).location_key = some x := by
          simp [upsertTouch, coalesce, h0l]
        rw [this] at hm
        exact Option.noConfusion hm
    · cases h0l : r0.location_key with
      | none => exact Or.inl h0l
      | some x =>
        have : (upsertTouch t nm rb ra lk r0).location_key = some x := by
          simp [upsertTouch, coalesce, h0l]
        rw [this] at hm
        exact Or.inr (h0l.trans hm)
  · rw [if_neg hrk] at hrr
    subst hrr
    exact h r0 hr0

theorem countP_key_eq {s2 s : Store}
    (h : s2.map (fun r => r.request_key) = s.map (fun r => r.request_key)) (K : String) :
    s2.countP (fun r => r.request_key = K) = s.countP (fun r => r.request_key = K) := by
  have h1 := congrArg (List.countP (fun x => x = K)) h
  rw [List.countP_map, List.countP_map] at h1
  simpa [Function.comp] using h1

theorem updateRows_touch_keys (s : Store) (k : String) (t : Nat)
    (nm rb ra : Option String) (lk : String) :
    (updateRows s k (upsertTouch t nm rb ra lk)).map (fun r => r.request_key) =
      s.map (fun r => r.request_key) :=
  updateRows_keys _ _ _ (fun _ => rfl)

theorem countP_key_eq_one_of {s2 s : Store}
    (h : s2.map (fun r => r.request_key) = s.map (fun r => r.request_key))
    (hkeys : KeysNodup s) {row : Row} (hmem : row ∈ s) :
    s2.countP (fun r => r.request_key = row.request_key) = 1 := by
  rw [countP_key_eq h]
  exact countP_key_of_mem hkeys hmem

theorem upsert_idem_aux (s : Store) (req : RequestedLocation) (p t1 t2 : Nat)
    (hkeys : KeysNodup s) (hlk : ∀ r ∈ s, ¬ missingLocKey r) :
    (upsert_request (upsert_request s req p t1).1 req p t2).2.request_key =
        (upsert_request s req p t1).2.request_key
    ∧ (upsert_request (upsert_request s req p t1).1 req p t2).1 =
        updateRows (upsert_request s req p t1).1 (upsert_request s req p t1).2.request_key
          (fun row => { row with last_seen := t2 })
    ∧ (upsert_request (upsert_request s req p t1).1 req p t2).1.countP
        (fun row => row.request_key = (upsert_request s req p t1).2.request_key) = 1 := by
  cases hsig : get_request_by_signature s (location_key_for req.lat req.lon p) req.bundle_slug
      (normalize_norad_ids (req.selected_norad_ids.getD [])) with
  | some ex =>
    obtain ⟨row0, hf, hrec⟩ :
        ∃ row0, s.find? (fun r =>
            r.location_key = some (location_key_for req.lat req.lon p) ∧
              r.bundle_slug = req.bundle_slug ∧
              r.selected = normalize_norad_ids (normalize_norad_ids
                (req.selected_norad_ids.getD []))) = some row0 ∧
          recOfRow row0 = ex := Option.map_eq_some'.mp hsig
    subst hrec
    have hmem0 : row0 ∈ s := List.mem_of_find?_eq_some hf
    have hp0 : row0.location_key = some (location_key_for req.lat req.lon p) ∧
        row0.bundle_slug = req.bundle_slug ∧
        row0.selected = normalize_norad_ids (normalize_norad_ids
          (req.selected_norad_ids.getD [])) := by
      have hb := List.find?_some hf
      exact of_decide_eq_true hb
    have E1 := upsert_request_sig_eq s req p t1 (recOfRow row0) hlk hsig
    rw [E1]
    simp only [recOfRow]
    have hpred1 : (fun r : Row => decide
        (r.location_key = some (location_key_for req.lat req.lon p) ∧
          r.bundle_slug = req.bundle_slug ∧
          r.selected = normalize_norad_ids (normalize_norad_ids
            (req.selected_norad_ids.getD []))))
        (upsertTouch t1 req.name (pyOr row0.requested_by req.requested_by)
          (pyOr row0.requested_at req.requested_at)
          (location_key_for req.lat req.lon p) row0) = true := by
      apply decide_eq_true
      refine ⟨?_, hp0.2.1, hp0.2.2⟩
      show coalesce row0.location_key (some (location_key_for req.lat req.lon p)) =
        some (location_key_for req.lat req.lon p)
      rw [hp0.1]
      rfl
    have hlk1 := hlk_updateRows hlk row0.request_key t1 req.name
      (pyOr row0.requested_by req.requested_by) (pyOr row0.requested_at req.requested_at)
      (location_key_for req.lat req.lon p)
    have hkeys1 : KeysNodup (updateRows s row0.request_key
        (upsertTouch t1 req.name (pyOr row0.requested_by req.requested_by)
          (pyOr row0.requested_at req.requested_at)
          (location_key_for req.lat req.lon p))) := by
      unfold KeysNodup
      rw [updateRows_touch_keys]
      exact hkeys
    have hf2 := find?_updateRows_found hkeys hf rfl
      (upsertTouch t1 req.name (pyOr row0.requested_by req.requested_by)
        (pyOr row0.requested_at req.requested_at)
        (location_key_for req.lat req.lon p)) hpred1
    have hsig2 : get_request_by_signature
        (updateRows s row0.request_key
          (upsertTouch t1 req.name (pyOr row0.requested_by req.requested_by)
            (pyOr row0.requested_at req.requested_at)
            (location_key_for req.lat req.lon p)))
        (location_key_for req.lat req.lon p) req.bundle_slug
        (normalize_norad_ids (req.selected_norad_ids.getD [])) =
        some (recOfRow (upsertTouch t1 req.name (pyOr row0.requested_by req.requested_by)
          (pyOr row0.requested_at req.requested_at)
          (location_key_for req.lat req.lon p) row0)) := by
      unfold get_request_by_signature
      rw [hf2]
      rfl
    have E2 := upsert_request_sig_eq _ req p t2 _ hlk1 hsig2
    rw [E2]
    simp only [recOfRow, upsertTouch]
    refine ⟨by trivial, ?_, ?_⟩
    · apply updateRows_congr
      intro r hr hk
      obtain ⟨r0, hr0, hrr⟩ := List.mem_map.mp hr
      by_cases h0 : r0.request_key = row0.request_key
      · have hr00 : r0 = row0 := List.inj_on_of_nodup_map hkeys hr0 hmem0 h0
        subst hr00
        rw [if_pos h0] at hrr
        subst hrr
        exact upsertTouch_stable t1 t2 req.name req.requested_by req.requested_at
          (location_key_for req.lat req.lon p) r0
      · rw [if_neg h0] at hrr
        subst hrr
        exact absurd hk h0
    · exact countP_key_eq_one_of (by rw [updateRows_touch_keys, updateRows_touch_keys])
        hkeys hmem0
  | none =>
    cases hfind : s.find? (fun r => r.request_key =
        request_key_for (resolved_location_slug req p) req.bundle_slug
          (normalize_norad_ids (req.selected_norad_ids.getD []))) with
    | some ek =>
      have hkey : ek.request_key = request_key_for (resolved_location_slug req p)
          req.bundle_slug (normalize_norad_ids (req.selected_norad_ids.getD [])) := by
        have hb := List.find?_some hfind
        exact of_decide_eq_true hb
      have hmemk : ek ∈ s := List.mem_of_find?_eq_some hfind
      have E1 := upsert_request_key_eq s req p t1 ek hlk hsig hfind
      rw [E1]
      have hsig_none : s.find? (fun r =>
          r.location_key = some (location_key_for req.lat req.lon p) ∧
            r.bundle_slug = req.bundle_slug ∧
            r.selected = normalize_norad_ids (normalize_norad_ids
              (req.selected_norad_ids.getD []))) = none := Option.map_eq_none'.mp hsig
      have hpredinv : ∀ r ∈ s, (fun r : Row => decide
          (r.location_key = some (location_key_for req.lat req.lon p) ∧
            r.bundle_slug = req.bundle_slug ∧
            r.selected = normalize_norad_ids (normalize_norad_ids
              (req.selected_norad_ids.getD []))))
          (upsertTouch t1 req.name (pyOr ek.requested_by req.requested_by)
            (pyOr ek.requested_at req.requested_at)
            (location_key_for req.lat req.lon p) r) = (fun r : Row => decide
          (r.location_key = some (location_key_for req.lat req.lon p) ∧
            r.bundle_slug = req.bundle_slug ∧
            r.selected = normalize_norad_ids (normalize_norad_ids
              (req.selected_norad_ids.getD [])))) r := by
        intro r hr
        cases hx : r.location_key with
        | none => exact absurd (Or.inl hx) (hlk r hr)
        | some x =>
          simp only [upsertTouch, coalesce, hx]
      have hsig2 : get_request_by_signature (updateRows s
          (request_key_for (resolved_location_slug req p) req.bundle_slug
            (normalize_norad_ids (req.selected_norad_ids.getD [])))
          (upsertTouch t1 req.name (pyOr ek.requested_by req.requested_by)
            (pyOr ek.requested_at req.requested_at)
            (location_key_for req.lat req.lon p)))
          (location_key_for req.lat req.lon p) req.bundle_slug
          (normalize_norad_ids (req.selected_norad_ids.getD [])) = none := by
        unfold get_request_by_signature
        rw [find?_updateRows_none hsig_none _ hpredinv]
        rfl
      have hlk1 := hlk_updateRows hlk
        (request_key_for (resolved_location_slug req p) req.bundle_slug
          (normalize_norad_ids (req.selected_norad_ids.getD []))) t1 req.name
        (pyOr ek.requested_by req.requested_by) (pyOr ek.requested_at req.requested_at)
        (location_key_for req.lat req.lon p)
      have hfind2 := find?_updateRows_found hkeys hfind hkey
        (upsertTouch t1 req.name (pyOr ek.requested_by req.requested_by)
          (pyOr ek.requested_at req.requested_at)
          (location_key_for req.lat req.lon p)) (by exact decide_eq_true hkey)
      have E2 := upsert_request_key_eq _ req p t2 _ hlk1 hsig2 hfind2
      rw [E2]
      refine ⟨by trivial, ?_, ?_⟩
      · apply updateRows_congr
        intro r hr hk
        obtain ⟨r0, hr0, hrr⟩ := List.mem_map.mp hr
        by_cases h0 : r0.request_key =
            request_key_for (resolved_location_slug req p) req.bundle_slug
              (normalize_norad_ids (req.selected_norad_ids.getD []))
        · have hr00 : r0 = ek :=
            List.inj_on_of_nodup_map hkeys hr0 hmemk (h0.trans hkey.symm)
          subst hr00
          rw [if_pos h0] at hrr
          subst hrr
          exact upsertTouch_stable t1 t2 req.name req.requested_by req.requested_at
            (location_key_for req.lat req.lon p) r0
        · rw [if_neg h0] at hrr
          subst hrr
          exact absurd hk h0
      · rw [← hkey]
        exact countP_key_eq_one_of (by rw [updateRows_touch_keys, updateRows_touch_keys])
          hkeys hmemk
    | none =>
      have E1 := upsert_request_ins_eq s req p t1 hlk hsig hfind
      rw [E1]
      have hkeynotin : ∀ r ∈ s, r.request_key ≠
          request_key_for (resolved_location_slug req p) req.bundle_slug
            (normalize_norad_ids (req.selected_norad_ids.getD [])) := by
        intro r hr
        have := List.find?_eq_none.mp hfind r hr
        simpa using this
      have hkeys1 : KeysNodup (s ++ [freshRow req p t1]) := by
        unfold KeysNodup
        rw [List.map_append]
        refine List.Nodup.append hkeys (by simp) ?_
        intro a ha hb
        rw [List.mem_map] at ha
        obtain ⟨r, hr, hra⟩ := ha
        simp only [List.map_cons, List.map_nil, List.mem_singleton] at hb
        exact hkeynotin r hr (hra.symm ▸ hb)
      have hlk1 : ∀ r ∈ s ++ [freshRow req p t1], ¬ missingLocKey r := by
        intro r hr
        rcases List.mem_append.mp hr with h | h
        · exact hlk r h
        · rw [List.mem_singleton] at h
          subst h
          intro hmiss
          rcases hmiss with hm | hm
          · exact Option.noConfusion hm
          · have : location_key_for req.lat req.lon p = "" := by
              have := hm
              simpa [freshRow] using this
            exact location_slug_ne_empty req.lat req.lon p this
      have hsig_none_s : s.find? (fun r =>
          r.location_key = some (location_key_for req.lat req.lon p) ∧
            r.bundle_slug = req.bundle_slug ∧
            r.selected = normalize_norad_ids (normalize_norad_ids
              (req.selected_norad_ids.getD []))) = none := Option.map_eq_none'.mp hsig
      have hprednew : (fun r : Row => decide
          (r.location_key = some (location_key_for req.lat req.lon p) ∧
            r.bundle_slug = req.bundle_slug ∧
            r.selected = normalize_norad_ids (normalize_norad_ids
              (req.selected_norad_ids.getD []))))
          (freshRow req p t1) = true := by
        apply decide_eq_true
        refine ⟨rfl, rfl, ?_⟩
        show normalize_norad_ids (req.selected_norad_ids.getD []) = _
        rw [normalize_norad_idem]
      have hfind2 : (s ++ [freshRow req p t1]).find? (fun r =>
          r.location_key = some (location_key_for req.lat req.lon p) ∧
            r.bundle_slug = req.bundle_slug ∧
            r.selected = normalize_norad_ids (normalize_norad_ids
              (req.selected_norad_ids.getD []))) = some (freshRow req p t1) := by
        rw [List.find?_append, hsig_none_s]
        simp only [Option.none_orElse, List.find?_singleton, hprednew, if_true]
        rfl
      have hsig2 : get_request_by_signature (s ++ [freshRow req p t1])
          (location_key_for req.lat req.lon p) req.bundle_slug
          (normalize_norad_ids (req.selected_norad_ids.getD [])) =
          some (recOfRow (freshRow req p t1)) := by
        unfold get_request_by_signature
        rw [hfind2]
        rfl
      have E2 := upsert_request_sig_eq _ req p t2 _ hlk1 hsig2
      rw [E2]
      refine ⟨by trivial, ?_, ?_⟩
      · apply updateRows_congr
        intro r hr hk
        rcases List.mem_append.mp hr with h | h
        · exact absurd hk (hkeynotin r h)
        · rw [List.mem_singleton] at h
          subst h
          show upsertTouch t2 req.name _ _ _ _ = _
          simp [upsertTouch, freshRow, recOfRow, coalesce_pyOr, coalesce_idem]
      · exact countP_key_eq_one_of (by rw [updateRows_touch_keys]) hkeys1
          (List.mem_append.mpr (Or.inr (List.mem_singleton_self _)))

/-- Claim C3: upsert is idempotent.  On any store whose request keys are
unique (the PRIMARY KEY invariant), two successive upserts of the same
request return the same request key; the second call merely rewrites that one
record's `last_seen` to its own timestamp, leaving every other field and
every other row unchanged and adding no row; and exactly one live record
carries the returned key. -/
theorem upsert_idempotent (s : Store) (req : RequestedLocation) (p t1 t2 : Nat)
    (hkeys : KeysNodup s) :
    (upsert_request (upsert_request s req p t1).1 req p t2).2.request_key =
        (upsert_request s req p t1).2.request_key
    ∧ (upsert_request (upsert_request s req p t1).1 req p t2).1 =
        updateRows (upsert_request s req p t1).1 (upsert_request s req p t1).2.request_key
          (fun row => { row with last_seen := t2 })
    ∧ (upsert_request (upsert_request s req p t1).1 req p t2).1.countP
        (fun row => row.request_key = (upsert_request s req p t1).2.request_key) = 1 := by
  have hkeys' : KeysNodup (ensure_location_keys s p).1 := by
    unfold KeysNodup
    rw [ensure_keys]
    exact hkeys
  have h := upsert_idem_aux (ensure_location_keys s p).1 req p t1 t2 hkeys' (ensure_ok s p)
  rw [upsert_ensure_absorb s req p t1]
  exact h

theorem upsert_idempotent_witness :
    (upsert_request (upsert_request []
        ⟨none, some "Seattle", mkRat 476062 10000, mkRat (-1223321) 10000, some 0, "stations",
          some [25544], some "alice", none⟩ 4 100).1
        ⟨none, some "Seattle", mkRat 476062 10000, mkRat (-1223321) 10000, some 0, "stations",
          some [25544], some "alice", none⟩ 4 200).2.request_key =
      (upsert_request []
        ⟨none, some "Seattle", mkRat 476062 10000, mkRat (-1223321) 10000, some 0, "stations",
          some [25544], some "alice", none⟩ 4 100).2.request_key
    ∧ (upsert_request (upsert_request []
        ⟨none, some "Seattle", mkRat 476062 10000, mkRat (-1223321) 10000, some 0, "stations",
          some [25544], some "alice", none⟩ 4 100).1
        ⟨none, some "Seattle", mkRat 476062 10000, mkRat (-1223321) 10000, some 0, "stations",
          some [25544], some "alice", none⟩ 4 200).1 =
        updateRows (upsert_request []
          ⟨none, some "Seattle", mkRat 476062 10000, mkRat (-1223321) 10000, some 0, "stations",
            some [25544], some "alice", none⟩ 4 100).1
          (upsert_request []
            ⟨none, some "Seattle", mkRat 476062 10000, mkRat (-1223321) 10000, some 0,
              "stations", some [25544], some "alice", none⟩ 4 100).2.request_key
          (fun row => { row with last_seen := 200 })
    ∧ (upsert_request (upsert_request []
        ⟨none, some "Seattle", mkRat 476062 10000, mkRat (-1223321) 10000, some 0, "stations",
          some [25544], some "alice", none⟩ 4 100).1
        ⟨none, some "Seattle", mkRat 476062 10000, mkRat (-1223321) 10000, some 0, "stations",
          some [25544], some "alice", none⟩ 4 200).1.countP
        (fun row => row.request_key = (upsert_request []
          ⟨none, some "Seattle", mkRat 476062 10000, mkRat (-1223321) 10000, some 0,
            "stations", some [25544], some "alice", none⟩ 4 100).2.request_key) = 1 :=
  upsert_idempotent []
    ⟨none, some "Seattle", mkRat 476062 10000, mkRat (-1223321) 10000, some 0, "stations",
      some [25544], some "alice", none⟩ 4 100 200 (by decide)
theorem canonSel_avail_nil {sel avail : List Int} (ha : normalize_norad_ids avail = []) :
    canonicalize_selection sel avail = normalize_norad_ids sel := by
  show (if _ ∧ _ ∧ _ then _ else _) = _
  have hcf : canonFilter (normalize_norad_ids sel) (normalize_norad_ids avail) =
      normalize_norad_ids sel := by
    unfold canonFilter
    exact if_neg (fun hc => hc.2 ha)
  rw [hcf, if_neg (fun hc => hc.2.1 ha)]

theorem canonSel_sel_nil {sel avail : List Int} (hs : normalize_norad_ids sel = []) :
    canonicalize_selection sel avail = [] := by
  show (if _ ∧ _ ∧ _ then _ else _) = _
  have hcf : canonFilter (normalize_norad_ids sel) (normalize_norad_ids avail) = [] := by
    unfold canonFilter
    by_cases h : normalize_norad_ids sel ≠ [] ∧ normalize_norad_ids avail ≠ []
    · exact absurd hs h.1
    · rw [if_neg h]
      exact hs
  rw [hcf, if_neg (fun hc => hc.1 rfl)]

theorem canonSel_eq_filter {sel avail : List Int}
    (hs : normalize_norad_ids sel ≠ []) (ha : normalize_norad_ids avail ≠ []) :
    canonicalize_selection sel avail =
      if ((normalize_norad_ids sel).filter (· ∈ normalize_norad_ids avail)).toFinset =
          (normalize_norad_ids avail).toFinset then []
      else (normalize_norad_ids sel).filter (· ∈ normalize_norad_ids avail) := by
  have hcf : canonFilter (normalize_norad_ids sel) (normalize_norad_ids avail) =
      (normalize_norad_ids sel).filter (· ∈ normalize_norad_ids avail) := by
    unfold canonFilter
    exact if_pos ⟨hs, ha⟩
  show (if _ ∧ _ ∧ _ then _ else _) = _
  rw [hcf]
  by_cases hf :
      ((normalize_norad_ids sel).filter (· ∈ normalize_norad_ids avail)).toFinset =
        (normalize_norad_ids avail).toFinset
  · have hne : (normalize_norad_ids sel).filter (· ∈ normalize_norad_ids avail) ≠ [] := by
      intro h0
      rw [h0] at hf
      exact ha ((List.toFinset_eq_empty_iff _).mp hf.symm)
    rw [if_pos ⟨hne, ha, hf⟩, if_pos hf]
  · rw [if_neg (fun hc => hf hc.2.2), if_neg hf]

theorem canonSel_sorted (sel avail : List Int) :
    List.Sorted (· < ·) (canonicalize_selection sel avail) := by
  show List.Sorted _ (if _ ∧ _ ∧ _ then _ else _)
  split
  · exact List.sorted_nil
  · unfold canonFilter
    split
    · exact ((normalize_norad_sorted_lt sel).filter _)
    · exact normalize_norad_sorted_lt sel

theorem canonSel_sublist (sel avail : List Int) :
    List.Sublist (canonicalize_selection sel avail) (normalize_norad_ids sel) := by
  show List.Sublist (if _ ∧ _ ∧ _ then _ else _) _
  split
  · exact List.nil_sublist _
  · unfold canonFilter
    split
    · exact List.filter_sublist _
    · exact List.Sublist.refl _

theorem pySlice_sublist {α : Type} (k : Int) (l : List α) : List.Sublist (pySlice k l) l := by
  unfold pySlice
  split
  · exact List.take_sublist _ _
  · exact List.take_sublist _ _

theorem canonBase_sorted (avail : String → List Int) (cap : Int) (b : String)
    (stored : List Int) : List.Sorted (· < ·) (canonBase avail cap b stored) := by
  unfold canonBase
  split
  · unfold default_selection
    split
    · exact List.sorted_nil
    · exact List.Pairwise.sublist (pySlice_sublist _ _) (normalize_norad_sorted_lt _)
  · exact normalize_norad_sorted_lt stored

theorem canonCapped_sorted (avail : String → List Int) (cap : Int) (b : String)
    (stored : List Int) : List.Sorted (· < ·) (canonCapped avail cap b stored) := by
  unfold canonCapped
  split
  · exact List.Pairwise.sublist (pySlice_sublist _ _) (canonBase_sorted avail cap b stored)
  · exact canonBase_sorted avail cap b stored

theorem pySlice_length_le {α : Type} {cap : Int} (hcap : 0 ≤ cap) (l : List α) :
    ((pySlice cap l).length : Int) ≤ cap := by
  unfold pySlice
  rw [if_pos hcap]
  have h1 : (l.take cap.toNat).length ≤ cap.toNat := by
    rw [List.length_take]
    exact Nat.min_le_left _ _
  calc ((l.take cap.toNat).length : Int) ≤ (cap.toNat : Int) := by exact_mod_cast h1
    _ = cap := Int.toNat_of_nonneg hcap

theorem canonCapped_len {avail : String → List Int} {cap : Int} (hcap : 0 ≤ cap)
    (b : String) (stored : List Int) :
    canonCapped avail cap b stored = [] ∨
      ((canonCapped avail cap b stored).length : Int) ≤ cap := by
  unfold canonCapped
  split
  · exact Or.inr (pySlice_length_le hcap _)
  next h =>
    rcases Decidable.not_and_iff_or_not.mp h with h1 | h1
    · left
      exact Decidable.not_not.mp h1
    · right
      exact le_of_not_lt (fun hc => h1 hc)

theorem canonicalOf_sorted (avail : String → List Int) (cap : Int) (b : String)
    (stored : List Int) : List.Sorted (· < ·) (canonicalOf avail cap b stored) := by
  unfold canonicalOf
  exact canonSel_sorted _ _

theorem canonicalOf_fix (avail : String → List Int) {cap : Int} (hcap : 0 ≤ cap)
    (b : String) (stored : List Int)
    (hne : canonicalOf avail cap b stored ≠ []) :
    canonicalOf avail cap b (canonicalOf avail cap b stored) =
      canonicalOf avail cap b stored := by
  have hsort := canonicalOf_sorted avail cap b stored
  have hnorm : normalize_norad_ids (canonicalOf avail cap b stored) =
      canonicalOf avail cap b stored := normalize_norad_eq_self hsort
  have hcapnorm : normalize_norad_ids (canonCapped avail cap b stored) =
      canonCapped avail cap b stored :=
    normalize_norad_eq_self (canonCapped_sorted avail cap b stored)
  have hsub : List.Sublist (canonicalOf avail cap b stored)
      (canonCapped avail cap b stored) := by
    have h := canonSel_sublist (canonCapped avail cap b stored) (avail b)
    rw [hcapnorm] at h
    exact h
  have hlen : ((canonicalOf avail cap b stored).length : Int) ≤ cap := by
    rcases canonCapped_len hcap b stored with h | h
    · rw [h] at hsub
      exact absurd (List.sublist_nil.mp hsub) hne
    · calc ((canonicalOf avail cap b stored).length : Int) ≤
          ((canonCapped avail cap b stored).length : Int) := by
            exact_mod_cast hsub.length_le
        _ ≤ cap := h
  have hbase : canonBase avail cap b (canonicalOf avail cap b stored) =
      canonicalOf avail cap b stored := by
    unfold canonBase
    rw [hnorm]
    exact if_neg hne
  have hcapped : canonCapped avail cap b (canonicalOf avail cap b stored) =
      canonicalOf avail cap b stored := by
    unfold canonCapped
    rw [hbase]
    exact if_neg (fun hc => absurd hlen (not_le.mpr hc.2))
  show canonicalize_selection (canonCapped avail cap b (canonicalOf avail cap b stored))
      (avail b) = canonicalOf avail cap b stored
  rw [hcapped]
  by_cases ha : normalize_norad_ids (avail b) = []
  · rw [canonSel_avail_nil ha, hnorm]
  · by_cases hs2 : normalize_norad_ids (canonCapped avail cap b stored) = []
    · exact absurd (canonSel_sel_nil hs2) hne
    · have horig : canonicalOf avail cap b stored =
          if ((normalize_norad_ids (canonCapped avail cap b stored)).filter
              (· ∈ normalize_norad_ids (avail b))).toFinset =
              (normalize_norad_ids (avail b)).toFinset then []
          else (normalize_norad_ids (canonCapped avail cap b stored)).filter
              (· ∈ normalize_norad_ids (avail b)) := canonSel_eq_filter hs2 ha
      by_cases hF : ((normalize_norad_ids (canonCapped avail cap b stored)).filter
          (· ∈ normalize_norad_ids (avail b))).toFinset =
          (normalize_norad_ids (avail b)).toFinset
      · rw [if_pos hF] at horig
        exact absurd horig hne
      · rw [if_neg hF] at horig
        have hcne : normalize_norad_ids (canonicalOf avail cap b stored) ≠ [] := by
          rw [hnorm]
          exact hne
        rw [canonSel_eq_filter hcne ha, hnorm]
        have hfilter_self : (canonicalOf avail cap b stored).filter
            (· ∈ normalize_norad_ids (avail b)) = canonicalOf avail cap b stored := by
          apply List.filter_eq_self.mpr
          intro a ha'
          rw [horig] at ha'
          simpa using (List.mem_filter.mp ha').2
        rw [hfilter_self]
        rw [if_neg]
        intro hcol
        apply hF
        rw [← horig]
        exact hcol

theorem toHex8_length (n : Nat) : (toHex8 n).length = 8 := by
  show (String.mk _).length = 8
  simp [String.length]

theorem request_key_ne_empty_key (ls bs : String) {c : List Int}
    (hc : normalize_norad_ids c ≠ []) :
    request_key_for ls bs c ≠ request_key_for ls bs [] := by
  intro h
  unfold request_key_for compute_request_feed_slug at h
  rw [if_neg hc] at h
  rw [if_pos (show normalize_norad_ids ([] : List Int) = [] from rfl)] at h
  have hl := congrArg String.length h
  simp only [String.length_append, toHex8_length] at hl
  have h8 : (selection_hash (normalize_norad_ids c)).length = 8 := by
    unfold selection_hash
    exact toHex8_length _
  rw [h8] at hl
  omega

theorem canonStep_skip_stable (avail : String → List Int) (cap : Int)
    (acc : Store × Nat) (rec : Rec) (h : StableRec avail cap rec) :
    canonStep avail cap acc rec = acc := by
  unfold canonStep
  rcases h with h | h
  · rw [if_pos h]
  · by_cases h0 : canonicalOf avail cap rec.bundle_slug rec.selected = rec.selected
    · rw [if_pos h0]
    · rw [if_neg h0, if_pos h]

theorem canonStep_rewrite_eq (avail : String → List Int) (cap : Int)
    (acc : Store × Nat) (rec : Rec)
    (hne : canonicalOf avail cap rec.bundle_slug rec.selected ≠ rec.selected)
    (hkey : request_key_for rec.location_slug rec.bundle_slug
        (canonicalOf avail cap rec.bundle_slug rec.selected) ≠ rec.request_key)
    (hfound : get_request_by_key acc.1 (request_key_for rec.location_slug rec.bundle_slug
        (canonicalOf avail cap rec.bundle_slug rec.selected)) = none) :
    canonStep avail cap acc rec =
      (updateRows acc.1 rec.request_key (fun row =>
          { row with
            request_key := request_key_for rec.location_slug rec.bundle_slug
              (canonicalOf avail cap rec.bundle_slug rec.selected)
            selected := canonicalOf avail cap rec.bundle_slug rec.selected }),
        acc.2 + 1) := by
  unfold canonStep
  rw [if_neg hne, if_neg hkey, hfound]

theorem canonStep_merge_eq (avail : String → List Int) (cap : Int)
    (acc : Store × Nat) (rec : Rec) (ex : Rec)
    (hne : canonicalOf avail cap rec.bundle_slug rec.selected ≠ rec.selected)
    (hkey : request_key_for rec.location_slug rec.bundle_slug
        (canonicalOf avail cap rec.bundle_slug rec.selected) ≠ rec.request_key)
    (hfound : get_request_by_key acc.1 (request_key_for rec.location_slug rec.bundle_slug
        (canonicalOf avail cap rec.bundle_slug rec.selected)) = some ex) :
    canonStep avail cap acc rec =
      (deleteRows (updateRows acc.1
          (request_key_for rec.location_slug rec.bundle_slug
            (canonicalOf avail cap rec.bundle_slug rec.selected))
          (mergeTouch ex rec)) rec.request_key,
        acc.2 + 1) := by
  unfold canonStep
  rw [if_neg hne, if_neg hkey, hfound]

theorem mem_updateRows_of_ne {s : Store} {row : Row} (h : row ∈ s) {k : String}
    (hne : row.request_key ≠ k) (f : Row → Row) : row ∈ updateRows s k f := by
  unfold updateRows
  rw [List.mem_map]
  exact ⟨row, h, by rw [if_neg hne]⟩

theorem mem_updateRows_decompose {s : Store} {row' : Row} {k : String} {f : Row → Row}
    (h : row' ∈ updateRows s k f) :
    ∃ row ∈ s, row' = if row.request_key = k then f row else row := by
  unfold updateRows at h
  rw [List.mem_map] at h
  obtain ⟨row, hrow, heq⟩ := h
  exact ⟨row, hrow, heq.symm⟩

theorem mem_deleteRows {s : Store} {row : Row} {k : String} :
    row ∈ deleteRows s k ↔ row ∈ s ∧ row.request_key ≠ k := by
  unfold deleteRows
  rw [List.mem_filter]
  constructor
  · intro ⟨h1, h2⟩
    exact ⟨h1, by simpa using h2⟩
  · intro ⟨h1, h2⟩
    exact ⟨h1, by simpa using h2⟩

theorem get_request_by_key_none {s : Store} {k : String}
    (h : get_request_by_key s k = none) : ∀ r ∈ s, r.request_key ≠ k := by
  unfold get_request_by_key at h
  have h2 := Option.map_eq_none'.mp h
  rw [List.find?_eq_none] at h2
  intro r hr
  have := h2 r hr
  simpa using this

theorem keysNodup_delete {s : Store} (h : KeysNodup s) (k : String) :
    KeysNodup (deleteRows s k) :=
  List.Nodup.sublist (List.Sublist.map _ (List.filter_sublist s)) h

theorem updateRows_mergeTouch_keys (s : Store) (k : String) (ex rec : Rec) :
    (updateRows s k (mergeTouch ex rec)).map (fun r => r.request_key) =
      s.map (fun r => r.request_key) :=
  updateRows_keys _ _ _ (fun _ => rfl)

theorem keysNodup_rename {s : Store} (hkeys : KeysNodup s) {newKey : String}
    (hnew : ∀ r ∈ s, r.request_key ≠ newKey) (k : String) (c : List Int) :
    KeysNodup (updateRows s k
      (fun row => { row with request_key := newKey, selected := c })) := by
  induction s with
  | nil => exact List.nodup_nil
  | cons a t ih =>
    have hta : a.request_key ∉ t.map (fun r => r.request_key) :=
      (List.nodup_cons.mp hkeys).1
    have htk : KeysNodup t := (List.nodup_cons.mp hkeys).2
    have hnewt : ∀ r ∈ t, r.request_key ≠ newKey :=
      fun r hr => hnew r (List.mem_cons_of_mem a hr)
    have iht := ih htk hnewt
    show ((if a.request_key = k then _ else a) :: updateRows t k _).map
      (fun r => r.request_key) |>.Nodup
    rw [List.map_cons, List.nodup_cons]
    refine ⟨?_, iht⟩
    intro hmem
    rw [List.mem_map] at hmem
    obtain ⟨r', hr', hkey'⟩ := hmem
    obtain ⟨r0, hr0, hr0eq⟩ := mem_updateRows_decompose hr'
    by_cases h0 : r0.request_key = k
    · rw [if_pos h0] at hr0eq
      subst hr0eq
      by_cases ha : a.request_key = k
      · rw [if_pos ha] at hkey'
        have : r0.request_key = a.request_key := h0.trans ha.symm
        exact hta (List.mem_map.mpr ⟨r0, hr0, this.symm ▸ rfl⟩)
      · rw [if_neg ha] at hkey'
        exact hnew a (List.mem_cons_self a t) hkey'.symm
    · rw [if_neg h0] at hr0eq
      subst hr0eq
      by_cases ha : a.request_key = k
      · rw [if_pos ha] at hkey'
        exact hnewt r' hr0 hkey'
      · rw [if_neg ha] at hkey'
        exact hta (List.mem_map.mpr ⟨r', hr0, hkey'⟩)

theorem stableRec_of_match {avail : String → List Int} {cap : Int} {rec : Rec} {row : Row}
    (hm : recMatchesRow rec row) (h : StableRec avail cap rec) :
    StableRec avail cap (recOfRow row) := by
  obtain ⟨hk, hs, hb, hsel⟩ := hm
  show canonicalOf avail cap row.bundle_slug row.selected = row.selected ∨
    request_key_for row.location_slug row.bundle_slug
      (canonicalOf avail cap row.bundle_slug row.selected) = row.request_key
  rw [hk, hs, hb, hsel]
  exact h

theorem stableRec_mergeTouch {avail : String → List Int} {cap : Int} {ex rec : Rec}
    {row : Row} :
    StableRec avail cap (recOfRow (mergeTouch ex rec row)) ↔
      StableRec avail cap (recOfRow row) := Iff.rfl

theorem pendingRec_mergeTouch {ex rec : Rec} {row : Row} :
    PendingRec (recOfRow (mergeTouch ex rec row)) ↔ PendingRec (recOfRow row) := Iff.rfl

theorem recMatches_mergeTouch {rec' ex rec : Rec} {row : Row} :
    recMatchesRow rec' (mergeTouch ex rec row) ↔ recMatchesRow rec' row := Iff.rfl

theorem pending_of_fields {avail : String → List Int} {cap : Int} {rec : Rec}
    {row' : Row}
    (hsel : row'.selected = canonicalOf avail cap rec.bundle_slug rec.selected)
    (hkey : row'.request_key = request_key_for rec.location_slug rec.bundle_slug
      (canonicalOf avail cap rec.bundle_slug rec.selected))
    (hs : row'.location_slug = rec.location_slug)
    (hb : row'.bundle_slug = rec.bundle_slug)
    (hc : canonicalOf avail cap rec.bundle_slug rec.selected = []) :
    PendingRec (recOfRow row') := by
  refine ⟨?_, ?_⟩
  · show row'.selected = []
    rw [hsel, hc]
  · show row'.request_key = request_key_for row'.location_slug row'.bundle_slug []
    rw [hkey, hc, hs, hb]

theorem stable_of_fields {avail : String → List Int} {cap : Int} (hcap : 0 ≤ cap)
    {rec : Rec} {row' : Row}
    (hsel : row'.selected = canonicalOf avail cap rec.bundle_slug rec.selected)
    (hb : row'.bundle_slug = rec.bundle_slug)
    (hc : canonicalOf avail cap rec.bundle_slug rec.selected ≠ []) :
    StableRec avail cap (recOfRow row') := by
  left
  show canonicalOf avail cap row'.bundle_slug row'.selected = row'.selected
  rw [hsel, hb]
  exact canonicalOf_fix avail hcap _ _ hc



set_option maxHeartbeats 1600000 in
theorem canonFold_classify (avail : String → List Int) {cap : Int} (hcap : 0 ≤ cap)
    (snap : List Rec) :
    ∀ (st : Store) (n : Nat),
      KeysNodup st →
      (snap.map (fun r => r.request_key)).Nodup →
      (∀ rec ∈ snap, ∃ row ∈ st, recMatchesRow rec row) →
      (∀ row ∈ st, StableRec avail cap (recOfRow row) ∨ PendingRec (recOfRow row) ∨
        ∃ rec ∈ snap, recMatchesRow rec row) →
      KeysNodup (snap.foldl (canonStep avail cap) (st, n)).1 ∧
        ∀ row ∈ (snap.foldl (canonStep avail cap) (st, n)).1,
          StableRec avail cap (recOfRow row) ∨ PendingRec (recOfRow row) := by
  induction snap with
  | nil =>
    intro st n hkeys _ _ hclass
    refine ⟨hkeys, fun row hrow => ?_⟩
    rcases hclass row hrow with h | h | ⟨rec, hrec, _⟩
    · exact Or.inl h
    · exact Or.inr h
    · exact absurd hrec (List.not_mem_nil rec)
  | cons rec rest ih =>
    intro st n hkeys hsnapkeys hback hclass
    rw [List.foldl_cons]
    have hrestkeys : (rest.map (fun r => r.request_key)).Nodup :=
      (List.nodup_cons.mp hsnapkeys).2
    have hrecnotin : rec.request_key ∉ rest.map (fun r => r.request_key) :=
      (List.nodup_cons.mp hsnapkeys).1
    obtain ⟨row0, hrow0, hm0⟩ := hback rec (List.mem_cons_self rec rest)
    by_cases h438 : canonicalOf avail cap rec.bundle_slug rec.selected = rec.selected
    · rw [canonStep_skip_stable avail cap (st, n) rec (Or.inl h438)]
      apply ih st n hkeys hrestkeys
        (fun r hr => hback r (List.mem_cons_of_mem rec hr))
      intro row hrow
      rcases hclass row hrow with h | h | ⟨rec', hrec', hm'⟩
      · exact Or.inl h
      · exact Or.inr (Or.inl h)
      · rcases List.mem_cons.mp hrec' with h1 | h1
        · subst h1
          exact Or.inl (stableRec_of_match hm' (Or.inl h438))
        · exact Or.inr (Or.inr ⟨rec', h1, hm'⟩)
    · by_cases h445 : request_key_for rec.location_slug rec.bundle_slug
          (canonicalOf avail cap rec.bundle_slug rec.selected) = rec.request_key
      · rw [canonStep_skip_stable avail cap (st, n) rec (Or.inr h445)]
        apply ih st n hkeys hrestkeys
          (fun r hr => hback r (List.mem_cons_of_mem rec hr))
        intro row hrow
        rcases hclass row hrow with h | h | ⟨rec', hrec', hm'⟩
        · exact Or.inl h
        · exact Or.inr (Or.inl h)
        · rcases List.mem_cons.mp hrec' with h1 | h1
          · subst h1
            exact Or.inl (stableRec_of_match hm' (Or.inr h445))
          · exact Or.inr (Or.inr ⟨rec', h1, hm'⟩)
      · cases hget : get_request_by_key st (request_key_for rec.location_slug
            rec.bundle_slug (canonicalOf avail cap rec.bundle_slug rec.selected)) with
        | none =>
          rw [canonStep_rewrite_eq avail cap (st, n) rec h438 h445 hget]
          have hnew := get_request_by_key_none hget
          apply ih _ _ (keysNodup_rename hkeys hnew rec.request_key _) hrestkeys
          · intro r hr
            obtain ⟨row, hrowst, hm⟩ := hback r (List.mem_cons_of_mem rec hr)
            have hkne : row.request_key ≠ rec.request_key := by
              rw [hm.1]
              intro hc
              exact hrecnotin (List.mem_map.mpr ⟨r, hr, hc⟩)
            exact ⟨row, mem_updateRows_of_ne hrowst hkne _, hm⟩
          · intro row' hrow'
            obtain ⟨row, hrowst, hroweq⟩ := mem_updateRows_decompose hrow'
            by_cases hk : row.request_key = rec.request_key
            · rw [if_pos hk] at hroweq
              subst hroweq
              have hrow_is : row = row0 :=
                List.inj_on_of_nodup_map hkeys hrowst hrow0 (hk.trans hm0.1.symm)
              subst hrow_is
              by_cases hc : canonicalOf avail cap rec.bundle_slug rec.selected = []
              · exact Or.inr (Or.inl (pending_of_fields rfl rfl hm0.2.1 hm0.2.2.1 hc))
              · exact Or.inl (stable_of_fields hcap rfl hm0.2.2.1 hc)
            · rw [if_neg hk] at hroweq
              subst hroweq
              rcases hclass row' hrowst with h | h | ⟨rec', hrec', hm'⟩
              · exact Or.inl h
              · exact Or.inr (Or.inl h)
              · rcases List.mem_cons.mp hrec' with h1 | h1
                · exact absurd (hm'.1.trans (congrArg Rec.request_key h1)) hk
                · exact Or.inr (Or.inr ⟨rec', h1, hm'⟩)
        | some ex =>
          rw [canonStep_merge_eq avail cap (st, n) rec ex h438 h445 hget]
          have hkeys2 : KeysNodup (deleteRows (updateRows st
              (request_key_for rec.location_slug rec.bundle_slug
                (canonicalOf avail cap rec.bundle_slug rec.selected))
              (mergeTouch ex rec)) rec.request_key) := by
            apply keysNodup_delete
            unfold KeysNodup
            rw [updateRows_mergeTouch_keys]
            exact hkeys
          apply ih _ _ hkeys2 hrestkeys
          · intro r hr
            obtain ⟨row, hrowst, hm⟩ := hback r (List.mem_cons_of_mem rec hr)
            have hkne : row.request_key ≠ rec.request_key := by
              rw [hm.1]
              intro hc
              exact hrecnotin (List.mem_map.mpr ⟨r, hr, hc⟩)
            by_cases hk : row.request_key = request_key_for rec.location_slug
                rec.bundle_slug (canonicalOf avail cap rec.bundle_slug rec.selected)
            · refine ⟨mergeTouch ex rec row, ?_, recMatches_mergeTouch.mpr hm⟩
              rw [mem_deleteRows]
              constructor
              · unfold updateRows
                rw [List.mem_map]
                exact ⟨row, hrowst, by rw [if_pos hk]⟩
              · exact hkne
            · refine ⟨row, ?_, hm⟩
              rw [mem_deleteRows]
              exact ⟨mem_updateRows_of_ne hrowst hk _, hkne⟩
          · intro row' hrow'
            obtain ⟨hrow'u, hrow'k⟩ := mem_deleteRows.mp hrow'
            obtain ⟨row, hrowst, hroweq⟩ := mem_updateRows_decompose hrow'u
            by_cases hk : row.request_key = request_key_for rec.location_slug
                rec.bundle_slug (canonicalOf avail cap rec.bundle_slug rec.selected)
            · rw [if_pos hk] at hroweq
              subst hroweq
              rcases hclass row hrowst with h | h | ⟨rec', hrec', hm'⟩
              · exact Or.inl (stableRec_mergeTouch.mpr h)
              · exact Or.inr (Or.inl (pendingRec_mergeTouch.mpr h))
              · rcases List.mem_cons.mp hrec' with h1 | h1
                · exfalso
                  apply hrow'k
                  show (mergeTouch ex rec row).request_key = rec.request_key
                  have h2 : (mergeTouch ex rec row).request_key = row.request_key := rfl
                  rw [h2, hm'.1, h1]
                · exact Or.inr (Or.inr ⟨rec', h1, recMatches_mergeTouch.mpr hm'⟩)
            · rw [if_neg hk] at hroweq
              subst hroweq
              rcases hclass row' hrowst with h | h | ⟨rec', hrec', hm'⟩
              · exact Or.inl h
              · exact Or.inr (Or.inl h)
              · rcases List.mem_cons.mp hrec' with h1 | h1
                · exact absurd (hm'.1.trans (congrArg Rec.request_key h1)) hrow'k
                · exact Or.inr (Or.inr ⟨rec', h1, hm'⟩)

theorem stableRec_match_iff {avail : String → List Int} {cap : Int} {rec : Rec}
    {row : Row} (hm : recMatchesRow rec row) :
    StableRec avail cap (recOfRow row) ↔ StableRec avail cap rec := by
  obtain ⟨hk, hs, hb, hsel⟩ := hm
  show (canonicalOf avail cap row.bundle_slug row.selected = row.selected ∨
      request_key_for row.location_slug row.bundle_slug
        (canonicalOf avail cap row.bundle_slug row.selected) = row.request_key) ↔ _
  rw [hk, hs, hb, hsel]
  exact Iff.rfl

set_option maxHeartbeats 1600000 in
theorem canonFold_stabilize (avail : String → List Int) {cap : Int} (hcap : 0 ≤ cap)
    (snap : List Rec) :
    ∀ (st : Store) (n : Nat),
      KeysNodup st →
      (snap.map (fun r => r.request_key)).Nodup →
      (∀ rec ∈ snap, ∃ row ∈ st, recMatchesRow rec row) →
      (∀ row ∈ st, StableRec avail cap (recOfRow row) ∨
        (PendingRec (recOfRow row) ∧ ∃ rec ∈ snap, recMatchesRow rec row)) →
      ∀ row ∈ (snap.foldl (canonStep avail cap) (st, n)).1,
        StableRec avail cap (recOfRow row) := by
  induction snap with
  | nil =>
    intro st n _ _ _ hclass row hrow
    rcases hclass row hrow with h | ⟨_, rec, hrec, _⟩
    · exact h
    · exact absurd hrec (List.not_mem_nil rec)
  | cons rec rest ih =>
    intro st n hkeys hsnapkeys hback hclass
    rw [List.foldl_cons]
    have hrestkeys : (rest.map (fun r => r.request_key)).Nodup :=
      (List.nodup_cons.mp hsnapkeys).2
    have hrecnotin : rec.request_key ∉ rest.map (fun r => r.request_key) :=
      (List.nodup_cons.mp hsnapkeys).1
    obtain ⟨row0, hrow0, hm0⟩ := hback rec (List.mem_cons_self rec rest)
    by_cases h438 : canonicalOf avail cap rec.bundle_slug rec.selected = rec.selected
    · rw [canonStep_skip_stable avail cap (st, n) rec (Or.inl h438)]
      apply ih st n hkeys hrestkeys
        (fun r hr => hback r (List.mem_cons_of_mem rec hr))
      intro row hrow
      rcases hclass row hrow with h | ⟨hp, rec', hrec', hm'⟩
      · exact Or.inl h
      · rcases List.mem_cons.mp hrec' with h1 | h1
        · subst h1
          exact Or.inl ((stableRec_match_iff hm').mpr (Or.inl h438))
        · exact Or.inr ⟨hp, rec', h1, hm'⟩
    · by_cases h445 : request_key_for rec.location_slug rec.bundle_slug
          (canonicalOf avail cap rec.bundle_slug rec.selected) = rec.request_key
      · rw [canonStep_skip_stable avail cap (st, n) rec (Or.inr h445)]
        apply ih st n hkeys hrestkeys
          (fun r hr => hback r (List.mem_cons_of_mem rec hr))
        intro row hrow
        rcases hclass row hrow with h | ⟨hp, rec', hrec', hm'⟩
        · exact Or.inl h
        · rcases List.mem_cons.mp hrec' with h1 | h1
          · subst h1
            exact Or.inl ((stableRec_match_iff hm').mpr (Or.inr h445))
          · exact Or.inr ⟨hp, rec', h1, hm'⟩
      · have hstable_rec : ¬ StableRec avail cap rec := by
          intro hst
          rcases hst with h | h
          · exact h438 h
          · exact h445 h
        have hpend0 : PendingRec (recOfRow row0) := by
          rcases hclass row0 hrow0 with h | hp
          · exact absurd ((stableRec_match_iff hm0).mp h) hstable_rec
          · exact hp.1
        have hrecsel : rec.selected = [] := by
          have h1 : row0.selected = [] := hpend0.1
          rw [← hm0.2.2.2]
          exact h1
        have hcanon_ne : canonicalOf avail cap rec.bundle_slug rec.selected ≠ [] :=
          fun hc => h438 (hc.trans hrecsel.symm)
        cases hget : get_request_by_key st (request_key_for rec.location_slug
            rec.bundle_slug (canonicalOf avail cap rec.bundle_slug rec.selected)) with
        | none =>
          rw [canonStep_rewrite_eq avail cap (st, n) rec h438 h445 hget]
          have hnew := get_request_by_key_none hget
          apply ih _ _ (keysNodup_rename hkeys hnew rec.request_key _) hrestkeys
          · intro r hr
            obtain ⟨row, hrowst, hm⟩ := hback r (List.mem_cons_of_mem rec hr)
            have hkne : row.request_key ≠ rec.request_key := by
              rw [hm.1]
              intro hc
              exact hrecnotin (List.mem_map.mpr ⟨r, hr, hc⟩)
            exact ⟨row, mem_updateRows_of_ne hrowst hkne _, hm⟩
          · intro row' hrow'
            obtain ⟨row, hrowst, hroweq⟩ := mem_updateRows_decompose hrow'
            by_cases hk : row.request_key = rec.request_key
            · rw [if_pos hk] at hroweq
              subst hroweq
              have hrow_is : row = row0 :=
                List.inj_on_of_nodup_map hkeys hrowst hrow0 (hk.trans hm0.1.symm)
              subst hrow_is
              exact Or.inl (stable_of_fields hcap rfl hm0.2.2.1 hcanon_ne)
            · rw [if_neg hk] at hroweq
              subst hroweq
              rcases hclass row' hrowst with h | ⟨hp, rec', hrec', hm'⟩
              · exact Or.inl h
              · rcases List.mem_cons.mp hrec' with h1 | h1
                · exact absurd (hm'.1.trans (congrArg Rec.request_key h1)) hk
                · exact Or.inr ⟨hp, rec', h1, hm'⟩
        | some ex =>
          rw [canonStep_merge_eq avail cap (st, n) rec ex h438 h445 hget]
          have hkeys2 : KeysNodup (deleteRows (updateRows st
              (request_key_for rec.location_slug rec.bundle_slug
                (canonicalOf avail cap rec.bundle_slug rec.selected))
              (mergeTouch ex rec)) rec.request_key) := by
            apply keysNodup_delete
            unfold KeysNodup
            rw [updateRows_mergeTouch_keys]
            exact hkeys
          apply ih _ _ hkeys2 hrestkeys
          · intro r hr
            obtain ⟨row, hrowst, hm⟩ := hback r (List.mem_cons_of_mem rec hr)
            have hkne : row.request_key ≠ rec.request_key := by
              rw [hm.1]
              intro hc
              exact hrecnotin (List.mem_map.mpr ⟨r, hr, hc⟩)
            by_cases hk : row.request_key = request_key_for rec.location_slug
                rec.bundle_slug (canonicalOf avail cap rec.bundle_slug rec.selected)
            · refine ⟨mergeTouch ex rec row, ?_, recMatches_mergeTouch.mpr hm⟩
              rw [mem_deleteRows]
              constructor
              · unfold updateRows
                rw [List.mem_map]
                exact ⟨row, hrowst, by rw [if_pos hk]⟩
              · exact hkne
            · refine ⟨row, ?_, hm⟩
              rw [mem_deleteRows]
              exact ⟨mem_updateRows_of_ne hrowst hk _, hkne⟩
          · intro row' hrow'
            obtain ⟨hrow'u, hrow'k⟩ := mem_deleteRows.mp hrow'
            obtain ⟨row, hrowst, hroweq⟩ := mem_updateRows_decompose hrow'u
            by_cases hk : row.request_key = request_key_for rec.location_slug
                rec.bundle_slug (canonicalOf avail cap rec.bundle_slug rec.selected)
            · rw [if_pos hk] at hroweq
              subst hroweq
              rcases hclass row hrowst with h | ⟨hp, rec', hrec', hm'⟩
              · exact Or.inl (stableRec_mergeTouch.mpr h)
              · rcases List.mem_cons.mp hrec' with h1 | h1
                · exfalso
                  apply hrow'k
                  have h2 : (mergeTouch ex rec row).request_key = row.request_key := rfl
                  rw [h2, hm'.1, h1]
                · exact Or.inr ⟨pendingRec_mergeTouch.mpr hp,
                    rec', h1, recMatches_mergeTouch.mpr hm'⟩
            · rw [if_neg hk] at hroweq
              subst hroweq
              rcases hclass row' hrowst with h | ⟨hp, rec', hrec', hm'⟩
              · exact Or.inl h
              · rcases List.mem_cons.mp hrec' with h1 | h1
                · exact absurd (hm'.1.trans (congrArg Rec.request_key h1)) hrow'k
                · exact Or.inr ⟨hp, rec', h1, hm'⟩

theorem list_requests_perm (s : Store) : (list_requests s).Perm (s.map recOfRow) :=
  List.perm_insertionSort _ _

theorem list_requests_keys_nodup {s : Store} (h : KeysNodup s) :
    ((list_requests s).map (fun r => r.request_key)).Nodup := by
  have hmapeq : (s.map recOfRow).map (fun r => r.request_key) =
      s.map (fun r => r.request_key) := by
    rw [List.map_map]
    exact List.map_congr_left (fun r _ => rfl)
  have hperm := (list_requests_perm s).map (fun r : Rec => r.request_key)
  rw [hmapeq] at hperm
  exact hperm.nodup_iff.mpr h

theorem list_requests_back {s : Store} :
    ∀ rec ∈ list_requests s, ∃ row ∈ s, recMatchesRow rec row := by
  intro rec hrec
  obtain ⟨row, hrow, hre⟩ := List.mem_map.mp (((list_requests_perm s).mem_iff).mp hrec)
  subst hre
  exact ⟨row, hrow, rfl, rfl, rfl, rfl⟩

theorem list_requests_cover {s : Store} :
    ∀ row ∈ s, ∃ rec ∈ list_requests s, recMatchesRow rec row := by
  intro row hrow
  exact ⟨recOfRow row,
    ((list_requests_perm s).mem_iff).mpr (List.mem_map.mpr ⟨row, hrow, rfl⟩),
    rfl, rfl, rfl, rfl⟩

theorem canonFold_noop (avail : String → List Int) (cap : Int) (snap : List Rec) :
    ∀ (st : Store) (n : Nat), (∀ rec ∈ snap, StableRec avail cap rec) →
      snap.foldl (canonStep avail cap) (st, n) = (st, n) := by
  induction snap with
  | nil => intro st n _; rfl
  | cons rec rest ih =>
    intro st n h
    rw [List.foldl_cons, canonStep_skip_stable avail cap (st, n) rec
      (h rec (List.mem_cons_self rec rest))]
    exact ih st n (fun r hr => h r (List.mem_cons_of_mem rec hr))

theorem canonicalize_noop {s : Store} {avail : String → List Int} {cap : Int}
    (h : ∀ row ∈ s, StableRec avail cap (recOfRow row)) :
    canonicalize_requests s avail cap = (s, 0) := by
  unfold canonicalize_requests
  apply canonFold_noop
  intro rec hrec
  obtain ⟨row, hrow, hre⟩ := List.mem_map.mp (((list_requests_perm s).mem_iff).mp hrec)
  subst hre
  exact h row hrow

theorem canonicalize_classify {s : Store} {avail : String → List Int} {cap : Int}
    (hcap : 0 ≤ cap) (hkeys : KeysNodup s) :
    KeysNodup (canonicalize_requests s avail cap).1 ∧
      ∀ row ∈ (canonicalize_requests s avail cap).1,
        StableRec avail cap (recOfRow row) ∨ PendingRec (recOfRow row) :=
  canonFold_classify avail hcap (list_requests s) s 0 hkeys
    (list_requests_keys_nodup hkeys) list_requests_back
    (fun row hrow => Or.inr (Or.inr (list_requests_cover row hrow)))

theorem canonicalize_stabilize {s : Store} {avail : String → List Int} {cap : Int}
    (hcap : 0 ≤ cap) (hkeys : KeysNodup s)
    (hclass : ∀ row ∈ s, StableRec avail cap (recOfRow row) ∨ PendingRec (recOfRow row)) :
    ∀ row ∈ (canonicalize_requests s avail cap).1, StableRec avail cap (recOfRow row) :=
  canonFold_stabilize avail hcap (list_requests s) s 0 hkeys
    (list_requests_keys_nodup hkeys) list_requests_back
    (fun row hrow => by
      rcases hclass row hrow with h | h
      · exact Or.inl h
      · exact Or.inr ⟨h, list_requests_cover row hrow⟩)

/-- Claim C4 counterexample: with availability `b -> [1, 2, 3]` and cap 2, a
store holding one record with the dead selection `[7]` makes the second
canonicalization run rewrite again (returning 1 and changing the store): the
first run empties the selection, the second refills it from the bundle
default, so the second run is not a no-op. -/
theorem canonicalize_not_idempotent_cex :
    ((canonicalize_requests
        (canonicalize_requests
          [⟨request_key_for "loc" "b" [7], "loc", some "k", "b", 0, 0, none, none, [7],
            none, none, 1, 1⟩]
          (fun b => if b = "b" then [1, 2, 3] else []) 2).1
        (fun b => if b = "b" then [1, 2, 3] else []) 2).2 = 1
      ∧ (1 : Nat) ≠ 0)
    ∧ (canonicalize_requests
        (canonicalize_requests
          [⟨request_key_for "loc" "b" [7], "loc", some "k", "b", 0, 0, none, none, [7],
            none, none, 1, 1⟩]
          (fun b => if b = "b" then [1, 2, 3] else []) 2).1
        (fun b => if b = "b" then [1, 2, 3] else []) 2).1 ≠
      (canonicalize_requests
        [⟨request_key_for "loc" "b" [7], "loc", some "k", "b", 0, 0, none, none, [7],
          none, none, 1, 1⟩]
        (fun b => if b = "b" then [1, 2, 3] else []) 2).1 := by
  refine ⟨⟨?_, by decide⟩, ?_⟩
  · decide
  · decide

/-- Claim C4 (amended): the canonicalization pass stabilizes after two runs,
not one.  For every store with unique request keys (the PRIMARY KEY
invariant), fixed availability map and fixed nonnegative per-request cap,
running canonicalize twice reaches a fixpoint: a third run performs no
inserts, updates, deletes or key rewrites and returns a rewritten count of 0.
A single run's successor need not be a no-op (a record whose whole selection
went stale is first emptied, then refilled from the bundle default). -/
theorem canonicalize_third_run_noop (s : Store) (avail : String → List Int) (cap : Int)
    (hcap : 0 ≤ cap) (hkeys : KeysNodup s) :
    canonicalize_requests
        (canonicalize_requests (canonicalize_requests s avail cap).1 avail cap).1
        avail cap =
      ((canonicalize_requests (canonicalize_requests s avail cap).1 avail cap).1, 0) := by
  obtain ⟨hkeys1, hclass1⟩ := @canonicalize_classify s avail cap hcap hkeys
  exact canonicalize_noop (canonicalize_stabilize hcap hkeys1 hclass1)

theorem canonicalize_third_run_noop_witness :
    canonicalize_requests
        (canonicalize_requests
          (canonicalize_requests
            [⟨request_key_for "loc" "b" [7], "loc", some "k", "b", 0, 0, none, none, [7],
              none, none, 1, 1⟩]
            (fun b => if b = "b" then [1, 2, 3] else []) 2).1
          (fun b => if b = "b" then [1, 2, 3] else []) 2).1
        (fun b => if b = "b" then [1, 2, 3] else []) 2 =
      ((canonicalize_requests
          (canonicalize_requests
            [⟨request_key_for "loc" "b" [7], "loc", some "k", "b", 0, 0, none, none, [7],
              none, none, 1, 1⟩]
            (fun b => if b = "b" then [1, 2, 3] else []) 2).1
          (fun b => if b = "b" then [1, 2, 3] else []) 2).1, 0) :=
  canonicalize_third_run_noop
    [⟨request_key_for "loc" "b" [7], "loc", some "k", "b", 0, 0, none, none, [7],
      none, none, 1, 1⟩]
    (fun b => if b = "b" then [1, 2, 3] else []) 2 (by decide) (by decide)

theorem mergeTouch_overwrite (ex d rec : Rec) (row : Row) :
    mergeTouch ex rec (mergeTouch ex d row) = mergeTouch ex rec row := rfl

theorem mergeTouch_key (ex rec : Rec) (row : Row) :
    (mergeTouch ex rec row).request_key = row.request_key := rfl

theorem dedupeStep_none_eq (st : Store) (seen : List ((String × String × List Int) × Rec))
    (removed : Nat) (rec : Rec)
    (h : seen.find? (fun p => p.1 = recSig rec) = none) :
    dedupeStep (st, seen, removed) rec = (st, seen ++ [(recSig rec, rec)], removed) := by
  unfold dedupeStep
  show (match Option.map Prod.snd (seen.find? (fun p => p.1 = recSig rec)) with
    | none => (st, seen ++ [(recSig rec, rec)], removed)
    | some ex =>
      (deleteRows (updateRows st ex.request_key (mergeTouch ex rec)) rec.request_key,
        seen, removed + 1)) = _
  rw [h]
  rfl

theorem dedupeStep_some_eq (st : Store) (seen : List ((String × String × List Int) × Rec))
    (removed : Nat) (rec : Rec) (p : (String × String × List Int) × Rec)
    (h : seen.find? (fun q => q.1 = recSig rec) = some p) :
    dedupeStep (st, seen, removed) rec =
      (deleteRows (updateRows st p.2.request_key (mergeTouch p.2 rec)) rec.request_key,
        seen, removed + 1) := by
  unfold dedupeStep
  show (match Option.map Prod.snd (seen.find? (fun q => q.1 = recSig rec)) with
    | none => (st, seen ++ [(recSig rec, rec)], removed)
    | some ex =>
      (deleteRows (updateRows st ex.request_key (mergeTouch ex rec)) rec.request_key,
        seen, removed + 1)) = _
  rw [h]
  rfl

theorem length_deleteRows {s : Store} (hkeys : KeysNodup s) {row : Row} (hmem : row ∈ s) :
    s.length = (deleteRows s row.request_key).length + 1 := by
  unfold deleteRows
  have h1 := List.length_eq_countP_add_countP
    (fun r : Row => decide (r.request_key = row.request_key)) s
  have h2 : s.countP (fun r => r.request_key = row.request_key) = 1 :=
    countP_key_of_mem hkeys hmem
  rw [show ((s.filter (fun r => decide (r.request_key ≠ row.request_key))).length) =
      s.countP (fun r => decide (r.request_key ≠ row.request_key)) from
    (List.countP_eq_length_filter _ _).symm]
  have h3 : s.countP (fun r => decide (r.request_key ≠ row.request_key)) =
      s.countP (fun a => decide ¬(decide (a.request_key = row.request_key) = true)) := by
    apply List.countP_congr
    intro r _
    by_cases h : r.request_key = row.request_key <;> simp [h]
  rw [h3]
  omega

theorem dedupe_inv_new (st0 : Store) (done rest : List Rec) (st : Store)
    (seen : List ((String × String × List Int) × Rec)) (removed : Nat) (rec : Rec)
    (inv : DedupInv st0 done (rec :: rest) st seen removed)
    (h : seen.find? (fun p => p.1 = recSig rec) = none) :
    DedupInv st0 (done ++ [rec]) rest st (seen ++ [(recSig rec, rec)]) removed := by
  have hnone : ∀ p ∈ seen, ¬ (p.1 = recSig rec) := by
    intro p hp
    have hq := List.find?_eq_none.mp h p hp
    simpa using hq
  obtain ⟨rowr, hrowr0, hrowrst, hrecr⟩ := inv.restRows rec (List.mem_cons_self rec rest)
  have hdone_sig : ∀ r ∈ done, ¬ (recSig r = recSig rec) := by
    intro r hr hsig
    obtain ⟨p, hp, hpsig⟩ := inv.doneSeen r hr
    exact hnone p hp (hpsig.trans hsig)
  have hfilter_done : done.filter (fun r => recSig r = recSig rec) = [] := by
    rw [List.filter_eq_nil_iff]
    intro r hr
    simpa using hdone_sig r hr
  have hfilter_keep : ∀ q : (String × String × List Int) × Rec, q ∈ seen →
      (done ++ [rec]).filter (fun r => recSig r = q.1) =
        done.filter (fun r => recSig r = q.1) := by
    intro q hq
    rw [List.filter_append]
    have hone : [rec].filter (fun r => recSig r = q.1) = [] := by
      rw [List.filter_eq_nil_iff]
      intro a ha
      rw [List.mem_singleton] at ha
      subst ha
      simp only [decide_eq_true_eq]
      intro heq
      exact hnone q hq heq.symm
    rw [hone, List.append_nil]
  refine ⟨inv.keys, ?_, ?_, ?_, ?_, inv.lenEq, ?_, ?_, ?_, ?_, ?_⟩
  · rw [List.map_append]
    refine List.Nodup.append inv.seenSigs (by simp) ?_
    intro a ha hb
    obtain ⟨p, hp, hpa⟩ := List.mem_map.mp ha
    simp only [List.map_cons, List.map_nil, List.mem_singleton] at hb
    exact hnone p hp (hpa.trans hb)
  · intro p hp
    rcases List.mem_append.mp hp with h1 | h1
    · exact inv.seenSig p h1
    · rw [List.mem_singleton] at h1
      subst h1
      rfl
  · intro p hp
    rcases List.mem_append.mp hp with h1 | h1
    · exact List.mem_append_left _ (inv.seenDone p h1)
    · rw [List.mem_singleton] at h1
      subst h1
      exact List.mem_append_right _ (List.mem_singleton.mpr rfl)
  · intro r hr
    rcases List.mem_append.mp hr with h1 | h1
    · obtain ⟨p, hp, hpe⟩ := inv.doneSeen r h1
      exact ⟨p, List.mem_append_left _ hp, hpe⟩
    · rw [List.mem_singleton] at h1
      subst h1
      exact ⟨(recSig r, r), List.mem_append_right _ (List.mem_singleton.mpr rfl), rfl⟩
  · intro rec' hrec'
    exact inv.restRows rec' (List.mem_cons_of_mem rec hrec')
  · intro row hrow
    rcases inv.cover row hrow with ⟨p, hp, hpk⟩ | ⟨rec', hrec', hk⟩
    · exact Or.inl ⟨p, List.mem_append_left _ hp, hpk⟩
    · rcases List.mem_cons.mp hrec' with h1 | h1
      · subst h1
        exact Or.inl ⟨(recSig rec', rec'),
          List.mem_append_right _ (List.mem_singleton.mpr rfl), hk⟩
      · exact Or.inr ⟨rec', h1, hk⟩
  · intro p hp
    rcases List.mem_append.mp hp with h1 | h1
    · obtain ⟨row0, h00, hpe, rowc, hrc, hrk, hbr⟩ := inv.surv p h1
      refine ⟨row0, h00, hpe, rowc, hrc, hrk, ?_⟩
      rw [hfilter_keep p h1]
      exact hbr
    · rw [List.mem_singleton] at h1
      subst h1
      refine ⟨rowr, hrowr0, hrecr, rowr, hrowrst, by rw [hrecr]; rfl, Or.inl ⟨?_, rfl⟩⟩
      rw [List.filter_append, hfilter_done, List.nil_append]
      simp [List.filter_cons]
  · intro p hp
    rcases List.mem_append.mp hp with h1 | h1
    · rw [hfilter_keep p h1]
      exact inv.headP p h1
    · rw [List.mem_singleton] at h1
      subst h1
      rw [List.filter_append, hfilter_done, List.nil_append]
      simp [List.filter_cons]
  · rw [List.append_assoc, List.singleton_append]
    exact inv.snapKeys

theorem dedupe_inv_dup (st0 : Store) (done rest : List Rec) (st : Store)
    (seen : List ((String × String × List Int) × Rec)) (removed : Nat) (rec : Rec)
    (p : (String × String × List Int) × Rec)
    (inv : DedupInv st0 done (rec :: rest) st seen removed)
    (h : seen.find? (fun q => q.1 = recSig rec) = some p) :
    DedupInv st0 (done ++ [rec]) rest
      (deleteRows (updateRows st p.2.request_key (mergeTouch p.2 rec)) rec.request_key)
      seen (removed + 1) := by
  have hpmem : p ∈ seen := List.mem_of_find?_eq_some h
  have hpsig : p.1 = recSig rec := by
    have hb := List.find?_some h
    exact of_decide_eq_true hb
  obtain ⟨rowr, hrowr0, hrowrst, hrecr⟩ := inv.restRows rec (List.mem_cons_self rec rest)
  have hreckey : rec.request_key = rowr.request_key := by rw [hrecr]; rfl
  have hpdone : p.2 ∈ done := inv.seenDone p hpmem
  have hsnap := inv.snapKeys
  rw [List.map_append, List.nodup_append] at hsnap
  obtain ⟨hdnd, hrnd, hdisj⟩ := hsnap
  have hdisjk : ∀ a ∈ done, ∀ b, b ∈ rec :: rest →
      a.request_key ≠ b.request_key := by
    intro a ha b hb heq
    exact hdisj (List.mem_map_of_mem _ ha) (heq ▸ List.mem_map_of_mem _ hb)
  have hexne : p.2.request_key ≠ rec.request_key :=
    hdisjk p.2 hpdone rec (List.mem_cons_self rec rest)
  have hkeysU : KeysNodup (updateRows st p.2.request_key (mergeTouch p.2 rec)) := by
    show (List.map _ _).Nodup
    rw [updateRows_mergeTouch_keys]
    exact inv.keys
  have hkeys' := keysNodup_delete hkeysU rec.request_key
  have hrestkeys : ∀ rec' ∈ rest, rec'.request_key ≠ rec.request_key := by
    intro rec' hrec' heq
    rw [List.map_cons, List.nodup_cons] at hrnd
    exact hrnd.1 (heq ▸ List.mem_map_of_mem _ hrec')
  refine ⟨hkeys', inv.seenSigs, inv.seenSig, ?_, ?_, ?_, ?_, ?_, ?_, ?_, ?_⟩
  · intro q hq
    exact List.mem_append_left _ (inv.seenDone q hq)
  · intro r hr
    rcases List.mem_append.mp hr with h1 | h1
    · exact inv.doneSeen r h1
    · rw [List.mem_singleton] at h1
      subst h1
      exact ⟨p, hpmem, hpsig⟩
  · have hmemU : rowr ∈ updateRows st p.2.request_key (mergeTouch p.2 rec) := by
      refine mem_updateRows_of_ne hrowrst ?_ _
      rw [← hreckey]
      exact fun hh => hexne hh.symm
    have hlen := length_deleteRows hkeysU hmemU
    rw [← hreckey] at hlen
    have hul := updateRows_length st p.2.request_key (mergeTouch p.2 rec)
    have hle := inv.lenEq
    omega
  · intro rec' hrec'
    obtain ⟨row, hrow0, hrowst, hre⟩ := inv.restRows rec' (List.mem_cons_of_mem rec hrec')
    have hrk : rec'.request_key = row.request_key := by rw [hre]; rfl
    refine ⟨row, hrow0, ?_, hre⟩
    rw [mem_deleteRows]
    constructor
    · refine mem_updateRows_of_ne hrowst ?_ _
      rw [← hrk]
      intro hh
      exact hdisjk p.2 hpdone rec' (List.mem_cons_of_mem rec hrec') hh.symm
    · rw [← hrk]
      exact hrestkeys rec' hrec'
  · intro row' hrow'
    rw [mem_deleteRows] at hrow'
    obtain ⟨hU, hne⟩ := hrow'
    obtain ⟨row, hrowst, hism⟩ := mem_updateRows_decompose hU
    have hkeyeq : row'.request_key = row.request_key := by
      rw [hism]
      split
      · rfl
      · rfl
    rcases inv.cover row hrowst with ⟨q, hq, hqk⟩ | ⟨rec', hrec', hk⟩
    · exact Or.inl ⟨q, hq, by rw [hkeyeq]; exact hqk⟩
    · rcases List.mem_cons.mp hrec' with h1 | h1
      · exact absurd (by rw [hkeyeq, ← hk, h1]) hne
      · exact Or.inr ⟨rec', h1, by rw [hkeyeq]; exact hk⟩
  · intro q hq
    obtain ⟨row0, h00, hqe, rowc, hrcst, hrck, hbr⟩ := inv.surv q hq
    by_cases hpp : q = p
    · subst hpp
      obtain ⟨t, hft⟩ : ∃ t, done.filter (fun r => recSig r = q.1) = q.2 :: t := by
        have hh := inv.headP q hq
        cases hfd : done.filter (fun r => recSig r = q.1) with
        | nil => rw [hfd] at hh; exact absurd hh (by simp)
        | cons b t =>
          rw [hfd] at hh
          simp only [List.head?_cons, Option.some_inj] at hh
          exact ⟨t, by rw [hh]⟩
      have hfone : [rec].filter (fun r => recSig r = q.1) = [rec] := by
        simp [List.filter_cons, hpsig.symm]
      have hgroup : (done ++ [rec]).filter (fun r => recSig r = q.1) =
          q.2 :: (t ++ [rec]) := by
        rw [List.filter_append, hft, hfone]
        rfl
      refine ⟨row0, h00, hqe, mergeTouch q.2 rec rowc, ?_, ?_, ?_⟩
      · rw [mem_deleteRows]
        constructor
        · show mergeTouch q.2 rec rowc ∈ List.map _ st
          refine List.mem_map.mpr ⟨rowc, hrcst, ?_⟩
          show (if rowc.request_key = q.2.request_key
              then mergeTouch q.2 rec rowc else rowc) = mergeTouch q.2 rec rowc
          rw [if_pos hrck]
        · rw [mergeTouch_key, hrck]
          exact hexne
      · rw [mergeTouch_key]
        exact hrck
      · refine Or.inr ⟨rec, ?_, ?_⟩
        · rw [hgroup]
          show (t ++ [rec]).getLast? = some rec
          exact List.getLast?_concat t
        · rcases hbr with ⟨_, hrc⟩ | ⟨d, _, hrc⟩
          · rw [hrc]
          · rw [hrc]
            exact mergeTouch_overwrite q.2 d rec row0
    · have hne1 : q.1 ≠ p.1 := by
        intro hq1
        exact hpp (List.inj_on_of_nodup_map inv.seenSigs hq hpmem hq1)
      have hfone : [rec].filter (fun r => recSig r = q.1) = [] := by
        rw [List.filter_eq_nil_iff]
        intro a ha
        rw [List.mem_singleton] at ha
        subst ha
        simp only [decide_eq_true_eq]
        intro heq
        exact hne1 (by rw [← heq, hpsig])
      have hgroup : (done ++ [rec]).filter (fun r => recSig r = q.1) =
          done.filter (fun r => recSig r = q.1) := by
        rw [List.filter_append, hfone, List.append_nil]
      have hqne : q.2 ≠ p.2 := by
        intro hq2
        exact hne1 (by rw [← inv.seenSig q hq, ← inv.seenSig p hpmem, hq2])
      have hqkne : q.2.request_key ≠ p.2.request_key := by
        intro hkk
        exact hqne (List.inj_on_of_nodup_map hdnd (inv.seenDone q hq) hpdone hkk)
      refine ⟨row0, h00, hqe, rowc, ?_, hrck, ?_⟩
      · rw [mem_deleteRows]
        constructor
        · refine mem_updateRows_of_ne hrcst ?_ _
          rw [hrck]
          exact hqkne
        · rw [hrck]
          exact hdisjk q.2 (inv.seenDone q hq) rec (List.mem_cons_self rec rest)
      · rw [hgroup]
        exact hbr
  · intro q hq
    by_cases hpp : q = p
    · subst hpp
      obtain ⟨t, hft⟩ : ∃ t, done.filter (fun r => recSig r = q.1) = q.2 :: t := by
        have hh := inv.headP q hq
        cases hfd : done.filter (fun r => recSig r = q.1) with
        | nil => rw [hfd] at hh; exact absurd hh (by simp)
        | cons b t =>
          rw [hfd] at hh
          simp only [List.head?_cons, Option.some_inj] at hh
          exact ⟨t, by rw [hh]⟩
      rw [List.filter_append, hft]
      rfl
    · have hne1 : q.1 ≠ p.1 := by
        intro hq1
        exact hpp (List.inj_on_of_nodup_map inv.seenSigs hq hpmem hq1)
      have hfone : [rec].filter (fun r => recSig r = q.1) = [] := by
        rw [List.filter_eq_nil_iff]
        intro a ha
        rw [List.mem_singleton] at ha
        subst ha
        simp only [decide_eq_true_eq]
        intro heq
        exact hne1 (by rw [← heq, hpsig])
      rw [List.filter_append, hfone, List.append_nil]
      exact inv.headP q hq
  · rw [List.append_assoc, List.singleton_append]
    exact inv.snapKeys

theorem dedupeFold_inv (st0 : Store) :
    ∀ (rest done : List Rec) (st : Store)
      (seen : List ((String × String × List Int) × Rec)) (removed : Nat),
      DedupInv st0 done rest st seen removed →
      DedupInv st0 (done ++ rest) []
        (rest.foldl dedupeStep (st, seen, removed)).1
        (rest.foldl dedupeStep (st, seen, removed)).2.1
        (rest.foldl dedupeStep (st, seen, removed)).2.2 := by
  intro rest
  induction rest with
  | nil =>
    intro done st seen removed inv
    simpa using inv
  | cons rec rest' ih =>
    intro done st seen removed inv
    rw [List.foldl_cons]
    cases hfind : seen.find? (fun p => p.1 = recSig rec) with
    | none =>
      rw [dedupeStep_none_eq st seen removed rec hfind]
      have h2 := ih (done ++ [rec]) st (seen ++ [(recSig rec, rec)]) removed
        (dedupe_inv_new st0 done rest' st seen removed rec inv hfind)
      rw [List.append_assoc, List.singleton_append] at h2
      exact h2
    | some p =>
      rw [dedupeStep_some_eq st seen removed rec p hfind]
      have h2 := ih (done ++ [rec])
        (deleteRows (updateRows st p.2.request_key (mergeTouch p.2 rec)) rec.request_key)
        seen (removed + 1)
        (dedupe_inv_dup st0 done rest' st seen removed rec p inv hfind)
      rw [List.append_assoc, List.singleton_append] at h2
      exact h2

theorem dedupe_inv_init (s : Store) (precision : Nat) (hkeys : KeysNodup s) :
    DedupInv (ensure_location_keys s precision).1 [] (dedupeSnapshot s precision)
      (ensure_location_keys s precision).1 [] 0 := by
  have hkeys0 : KeysNodup (ensure_location_keys s precision).1 := by
    show (List.map _ _).Nodup
    rw [ensure_keys]
    exact hkeys
  have hperm : (dedupeSnapshot s precision).Perm
      ((ensure_location_keys s precision).1.map recOfRow) :=
    (List.perm_insertionSort _ _).trans (list_requests_perm _)
  refine ⟨hkeys0, by simp, ?_, ?_, ?_, rfl, ?_, ?_, ?_, ?_, ?_⟩
  · intro p hp
    exact absurd hp (List.not_mem_nil p)
  · intro p hp
    exact absurd hp (List.not_mem_nil p)
  · intro r hr
    exact absurd hr (List.not_mem_nil r)
  · intro rec hrec
    obtain ⟨row, hrow, hre⟩ := List.mem_map.mp (hperm.mem_iff.mp hrec)
    exact ⟨row, hrow, hrow, hre.symm⟩
  · intro row hrow
    exact Or.inr ⟨recOfRow row,
      hperm.mem_iff.mpr (List.mem_map_of_mem recOfRow hrow), rfl⟩
  · intro p hp
    exact absurd hp (List.not_mem_nil p)
  · intro p hp
    exact absurd hp (List.not_mem_nil p)
  · rw [List.nil_append]
    have hmk := hperm.map (fun r : Rec => r.request_key)
    rw [List.map_map] at hmk
    have hme : (ensure_location_keys s precision).1.map
        ((fun r : Rec => r.request_key) ∘ recOfRow) =
        (ensure_location_keys s precision).1.map (fun r => r.request_key) :=
      List.map_congr_left (fun r _ => rfl)
    rw [hme] at hmk
    exact hmk.nodup_iff.mpr hkeys0

theorem rowSig_mergeTouch (ex cur : Rec) (row : Row) :
    rowSig (mergeTouch ex cur row) = rowSig row := rfl

/-- C5 (amended): after `dedupe_requests_by_signature` on a store with unique
request keys, no two live rows share the signature (location_key,
bundle_slug, normalized selection); the returned count equals the number of
rows deleted; and for each surviving row the kept record is the first group
member in the first_seen-ascending snapshot order (so its first_seen is the
group minimum, which the survivor retains), while the merged attribution and
last_seen are recomputed at every merge from the stale snapshot survivor and
the currently processed duplicate, so the survivor ends as `mergeTouch`
of the snapshot head and the LAST duplicate only — not a running merge over
the whole group. -/
theorem dedupe_characterization (s : Store) (precision : Nat) (hkeys : KeysNodup s) :
    ((dedupe_requests_by_signature s precision).1.map rowSig).Nodup ∧
    (ensure_location_keys s precision).1.length =
      (dedupe_requests_by_signature s precision).1.length +
        (dedupe_requests_by_signature s precision).2 ∧
    ∀ row ∈ (dedupe_requests_by_signature s precision).1,
      ∃ row0 ∈ (ensure_location_keys s precision).1,
        row.request_key = row0.request_key ∧
        ((dedupeSnapshot s precision).filter
            (fun r => recSig r = rowSig row)).head? = some (recOfRow row0) ∧
        (∀ r ∈ (dedupeSnapshot s precision).filter
            (fun r => recSig r = rowSig row), row0.first_seen ≤ r.first_seen) ∧
        row.first_seen = row0.first_seen ∧
        ((((dedupeSnapshot s precision).filter
              (fun r => recSig r = rowSig row)).tail = [] ∧ row = row0) ∨
          ∃ d, (((dedupeSnapshot s precision).filter
              (fun r => recSig r = rowSig row)).tail).getLast? = some d ∧
            row = mergeTouch (recOfRow row0) d row0) := by
  have inv0 := dedupeFold_inv (ensure_location_keys s precision).1
    (dedupeSnapshot s precision) [] (ensure_location_keys s precision).1 [] 0
    (dedupe_inv_init s precision hkeys)
  rw [List.nil_append] at inv0
  have hres1 : (dedupe_requests_by_signature s precision).1 =
      ((dedupeSnapshot s precision).foldl dedupeStep
        ((ensure_location_keys s precision).1, [], 0)).1 := rfl
  have hres2 : (dedupe_requests_by_signature s precision).2 =
      ((dedupeSnapshot s precision).foldl dedupeStep
        ((ensure_location_keys s precision).1, [], 0)).2.2 := rfl
  rw [hres1, hres2]
  have hassoc : ∀ row ∈ ((dedupeSnapshot s precision).foldl dedupeStep
        ((ensure_location_keys s precision).1, [], 0)).1,
      ∃ p ∈ ((dedupeSnapshot s precision).foldl dedupeStep
        ((ensure_location_keys s precision).1, [], 0)).2.1,
        p.2.request_key = row.request_key ∧ rowSig row = p.1 := by
    intro row hrow
    rcases inv0.cover row hrow with ⟨p, hp, hpk⟩ | ⟨rec, hrec, _⟩
    · obtain ⟨row0, h00, hpe, rowc, hrcst, hrck, hbr⟩ := inv0.surv p hp
      have hrc : rowc = row :=
        List.inj_on_of_nodup_map inv0.keys hrcst hrow (by rw [hrck, hpk])
      subst hrc
      refine ⟨p, hp, hrck.symm, ?_⟩
      rcases hbr with ⟨_, he⟩ | ⟨d, _, he⟩
      · rw [he]
        show recSig (recOfRow row0) = p.1
        rw [← hpe]
        exact inv0.seenSig p hp
      · rw [he, rowSig_mergeTouch]
        show recSig (recOfRow row0) = p.1
        rw [← hpe]
        exact inv0.seenSig p hp
    · exact absurd hrec (List.not_mem_nil rec)
  have hsorted : (dedupeSnapshot s precision).Pairwise
      (fun a b : Rec => a.first_seen ≤ b.first_seen) :=
    List.sorted_insertionSort _ _
  refine ⟨?_, inv0.lenEq, ?_⟩
  · refine List.Nodup.map_on ?_ (List.Nodup.of_map _ inv0.keys)
    intro x hx y hy hxy
    obtain ⟨px, hpx, hpxk, hpxs⟩ := hassoc x hx
    obtain ⟨py, hpy, hpyk, hpys⟩ := hassoc y hy
    have hpxy : px = py :=
      List.inj_on_of_nodup_map inv0.seenSigs hpx hpy (by rw [← hpxs, ← hpys, hxy])
    exact List.inj_on_of_nodup_map inv0.keys hx hy (by rw [← hpxk, ← hpyk, hpxy])
  · intro row hrow
    rcases inv0.cover row hrow with ⟨p, hp, hpk⟩ | ⟨rec, hrec, _⟩
    · obtain ⟨row0, h00, hpe, rowc, hrcst, hrck, hbr⟩ := inv0.surv p hp
      have hrc : rowc = row :=
        List.inj_on_of_nodup_map inv0.keys hrcst hrow (by rw [hrck, hpk])
      subst hrc
      have hsig : rowSig rowc = p.1 := by
        rcases hbr with ⟨_, he⟩ | ⟨d, _, he⟩
        · rw [he]
          show recSig (recOfRow row0) = p.1
          rw [← hpe]
          exact inv0.seenSig p hp
        · rw [he, rowSig_mergeTouch]
          show recSig (recOfRow row0) = p.1
          rw [← hpe]
          exact inv0.seenSig p hp
      have hhead := inv0.headP p hp
      rw [← hsig] at hhead hbr
      rw [hpe] at hhead
      obtain ⟨t, hgt⟩ : ∃ t, (dedupeSnapshot s precision).filter
          (fun r => recSig r = rowSig rowc) = recOfRow row0 :: t := by
        cases hfd : (dedupeSnapshot s precision).filter
            (fun r => recSig r = rowSig rowc) with
        | nil => rw [hfd] at hhead; exact absurd hhead (by simp)
        | cons b t2 =>
          rw [hfd] at hhead
          simp only [List.head?_cons, Option.some_inj] at hhead
          exact ⟨t2, by rw [hhead]⟩
      have hgp : ((dedupeSnapshot s precision).filter
          (fun r => recSig r = rowSig rowc)).Pairwise
            (fun a b : Rec => a.first_seen ≤ b.first_seen) :=
        List.Pairwise.sublist (List.filter_sublist _) hsorted
      rw [hgt] at hgp
      have hpc : ∀ r ∈ t, row0.first_seen ≤ r.first_seen :=
        (List.pairwise_cons.mp hgp).1
      have hmin : ∀ r ∈ (dedupeSnapshot s precision).filter
          (fun r => recSig r = rowSig rowc), row0.first_seen ≤ r.first_seen := by
        rw [hgt]
        intro r hr
        rcases List.mem_cons.mp hr with h1 | h1
        · rw [h1]
          exact Nat.le_refl _
        · exact hpc r h1
      have hfs : rowc.first_seen = row0.first_seen := by
        rcases hbr with ⟨_, he⟩ | ⟨d, hd, he⟩
        · rw [he]
        · rw [hgt] at hd
          simp only [List.tail_cons] at hd
          have hdm : d ∈ t := List.mem_of_getLast?_eq_some hd
          rw [he, hpe]
          show min (recOfRow row0).first_seen d.first_seen = row0.first_seen
          exact Nat.min_eq_left (hpc d hdm)
      rw [hpe] at hbr
      exact ⟨row0, h00, by rw [hrck, hpe]; rfl, hhead, hmin, hfs, hbr⟩
    · exact absurd hrec (List.not_mem_nil rec)

/-- C5 counterexample: three rows share one signature ("k", "b", []). The
snapshot order by first_seen is keys "a" (first 1, last 2), "bb" (first 2,
last 9), "c" (first 3, last 3). The pass merges "bb" into "a" (last_seen 9),
then merges "c" from the STALE `seen` record of "a" (last_seen 2), writing
last_seen max(2, 3) = 3 and losing the 9. The claimed group maximum of
last_seen is 9, but the surviving row carries 3. -/
theorem dedupe_stale_merge_cex :
    ([(⟨"a", "loc", some "k", "b", 0, 0, none, none, [], none, none, 1, 2⟩ : Row),
      ⟨"bb", "loc", some "k", "b", 0, 0, none, none, [], none, none, 2, 9⟩,
      ⟨"c", "loc", some "k", "b", 0, 0, none, none, [], none, none, 3, 3⟩].map
        rowSig =
      [("k", "b", []), ("k", "b", []), ("k", "b", [])]) ∧
    ((dedupe_requests_by_signature
        [⟨"a", "loc", some "k", "b", 0, 0, none, none, [], none, none, 1, 2⟩,
         ⟨"bb", "loc", some "k", "b", 0, 0, none, none, [], none, none, 2, 9⟩,
         ⟨"c", "loc", some "k", "b", 0, 0, none, none, [], none, none, 3, 3⟩] 4).1.map
        (fun r => (r.request_key, r.first_seen, r.last_seen)) =
      [("a", 1, 3)]) ∧
    (dedupe_requests_by_signature
        [⟨"a", "loc", some "k", "b", 0, 0, none, none, [], none, none, 1, 2⟩,
         ⟨"bb", "loc", some "k", "b", 0, 0, none, none, [], none, none, 2, 9⟩,
         ⟨"c", "loc", some "k", "b", 0, 0, none, none, [], none, none, 3, 3⟩] 4).2 = 2 :=
  ⟨rfl, rfl, rfl⟩


theorem dedupe_characterization_witness :
    KeysNodup [(⟨"a", "loc", some "k", "b", 0, 0, none, none, [], none, none, 1, 2⟩ : Row)] ∧
      (((dedupe_requests_by_signature [⟨"a", "loc", some "k", "b", 0, 0, none, none, [], none, none, 1, 2⟩] 4).1.map rowSig).Nodup ∧
      (ensure_location_keys [⟨"a", "loc", some "k", "b", 0, 0, none, none, [], none, none, 1, 2⟩] 4).1.length =
        (dedupe_requests_by_signature [⟨"a", "loc", some "k", "b", 0, 0, none, none, [], none, none, 1, 2⟩] 4).1.length +
          (dedupe_requests_by_signature [⟨"a", "loc", some "k", "b", 0, 0, none, none, [], none, none, 1, 2⟩] 4).2 ∧
      ∀ row ∈ (dedupe_requests_by_signature [⟨"a", "loc", some "k", "b", 0, 0, none, none, [], none, none, 1, 2⟩] 4).1,
        ∃ row0 ∈ (ensure_location_keys [⟨"a", "loc", some "k", "b", 0, 0, none, none, [], none, none, 1, 2⟩] 4).1,
          row.request_key = row0.request_key ∧
          ((dedupeSnapshot [⟨"a", "loc", some "k", "b", 0, 0, none, none, [], none, none, 1, 2⟩] 4).filter
              (fun r => recSig r = rowSig row)).head? = some (recOfRow row0) ∧
          (∀ r ∈ (dedupeSnapshot [⟨"a", "loc", some "k", "b", 0, 0, none, none, [], none, none, 1, 2⟩] 4).filter
              (fun r => recSig r = rowSig row), row0.first_seen ≤ r.first_seen) ∧
          row.first_seen = row0.first_seen ∧
          ((((dedupeSnapshot [⟨"a", "loc", some "k", "b", 0, 0, none, none, [], none, none, 1, 2⟩] 4).filter
                (fun r => recSig r = rowSig row)).tail = [] ∧ row = row0) ∨
            ∃ d, (((dedupeSnapshot [⟨"a", "loc", some "k", "b", 0, 0, none, none, [], none, none, 1, 2⟩] 4).filter
                (fun r => recSig r = rowSig row)).tail).getLast? = some d ∧
              row = mergeTouch (recOfRow row0) d row0)) :=
  ⟨by decide, dedupe_characterization [⟨"a", "loc", some "k", "b", 0, 0, none, none, [], none, none, 1, 2⟩] 4 (by decide)⟩
